import Mathlib

/-!
# mcheck: a shallow embedding of `mcheck/mcheck.go`

The program is a MongoDB workload generator.  `main` derives the database name
(`mcheck`), and starts one goroutine per thread running `connectMongo`, an endless
loop of cycles: insert a batch of robots, (in seed mode: insert the brands and exit),
run three point lookups on the midpoint key, count, and update the batch twice.

Modelling decisions.

* Go `int`, `int64` and `time.Duration` are 64-bit two's complement integers: they are
  `Int` values and every arithmetic result is passed through `wrapInt`.
* Go strings are Lean strings; all strings built by the program are ASCII, so the
  byte length `len` coincides with `String.length`.
* The store, the clock and the random generator are outside the program.  Their
  answers are the fields of `CycleEnv` (one per program point of a cycle) and of
  `WorkerEnv`; the model is a function of these answers.
* A run is observed through its `World`: the store operations issued so far (each with
  the outcome the store gave it) and the log lines written so far.
* The endless `for` of `connectMongo` is run for a given number of cycles (`fuel`).
-/

namespace Mcheck

/-! ## Machine integers -/

/-- Largest Go `int` (64-bit). -/
def maxInt : Int := 9223372036854775807

/-- Smallest Go `int` (64-bit). -/
def minInt : Int := -9223372036854775808

/-- Two's complement wraparound of an integer result to 64 bits. -/
def wrapInt (x : Int) : Int :=
  (x + 9223372036854775808) % 18446744073709551616 - 9223372036854775808

/-- Go `a + b` on `int`. -/
def goAdd (a b : Int) : Int := wrapInt (a + b)

/-- Go `a - b` on `int`. -/
def goSub (a b : Int) : Int := wrapInt (a - b)

/-- Go `a * b` on `int`. -/
def goMul (a b : Int) : Int := wrapInt (a * b)

/-- Go `a / b` on `int` for a divisor that is not zero: the quotient truncated toward
zero.  The caller checks `b = 0` first (a run-time panic in Go). -/
def goDiv (a b : Int) : Int := wrapInt (Int.tdiv a b)

/-- Go `a / b` on `int`: `none` is the run-time panic `integer divide by zero`. -/
def goQuo (a b : Int) : Option Int := if b = 0 then none else some (goDiv a b)

/-! ## Strings -/

/-- Go `strconv.Itoa`: the decimal representation, with a leading `-` for negatives. -/
def Itoa (i : Int) : String :=
  if i < 0 then "-" ++ Nat.repr (-i).toNat else Nat.repr i.toNat

/-- Go `len(s)` for an ASCII string, as an `int`. -/
def len (s : String) : Int := (s.length : Int)

/-- An uppercase hexadecimal digit, as `fmt` prints it for the verb `%X`. -/
def hexDigitUpper (d : Nat) : Char :=
  if d < 10 then Char.ofNat (48 + d) else Char.ofNat (55 + d)

/-- Go `fmt.Sprintf("%X", buf)` for a byte slice: two uppercase hexadecimal digits per
byte, high nibble first, bytes in order. -/
def fmtHexUpper (buf : List Nat) : String :=
  String.mk (buf.flatMap fun b => [hexDigitUpper (b % 256 / 16), hexDigitUpper (b % 16)])

/-! ## Data -/

/-- The constant `head`. -/
def head : String := "_MCHECK_"

/-- The struct `Statistics`. -/
structure Statistics where
  Tasked : Int
  Battery : Int
  Maint : Bool
deriving DecidableEq, Repr

/-- The struct `Robot`; `Updated` is the clock reading at construction. -/
structure Robot where
  Name : String
  Nickname : String
  Descr : String
  Stats : Statistics
  Updated : Int
deriving DecidableEq, Repr

/-- The struct `Brand`. -/
structure Brand where
  Name : String
  Sku : String
deriving DecidableEq, Repr

/-- The store operations `connectMongo` issues. -/
inductive Op where
  /-- `c.Insert(&Robot{...})` on collection `robots`. -/
  | insertRobot (r : Robot)
  /-- `b.Insert(&Brand{...})` on collection `brands`. -/
  | insertBrand (b : Brand)
  /-- `c.Pipe([{"$match": {"name": robot}}]).All(&resp)`. -/
  | aggregate (name : String)
  /-- `c.Find({"name": robot}).One(&result)`. -/
  | findName (name : String)
  /-- `c.Find({"nickname": robot}).One(&result)`. -/
  | findNickname (name : String)
  /-- `c.Count()`. -/
  | count
  /-- `c.Update({"name": robot}, {"$inc": {"stats.tasked": 1}})`. -/
  | updateInc (name : String)
  /-- `c.Update({"name": robot}, {"$set": {"descr": descr}})`. -/
  | updateSet (name : String) (descr : String)
deriving DecidableEq, Repr

/-- The lines `connectMongo` writes. -/
inductive LogLine where
  /-- `INSERT %d %s %s size %d`. -/
  | insert (batch avg elapsed size : Int)
  /-- `MATCH  %s with index {name: 1}`. -/
  | matchIndexed (elapsed0 : Int)
  /-- `FIND   %s with index {name: 1}`. -/
  | findIndexed (elapsed1 : Int)
  /-- `FIND   %s without index`. -/
  | findUnindexed (elapsed2 : Int)
  /-- `%d times faster with index from %d documents`. -/
  | faster (ratio totald : Int)
  /-- `UPDATE %d %s %s $inc stats.tasked by 1`. -/
  | updateInc (batch avg elapsed : Int)
  /-- `UPDATE %d %s %s $set descr string size of %d`. -/
  | updateSet (batch avg elapsed size : Int)
  /-- The error printed by `log.Fatal(err)`. -/
  | fatal
  /-- The empty line of `fmt.Println("")`. -/
  | blank
deriving DecidableEq, Repr

/-- How the process ends. -/
inductive Halt where
  /-- `os.Exit(code)`; `log.Fatal` is `os.Exit(1)` after printing. -/
  | exit (code : Int)
  /-- `panic(err)` after a failed `mgo.Dial`. -/
  | panicDial
  /-- The run-time panic `integer divide by zero`. -/
  | panicDivideByZero
deriving DecidableEq, Repr

/-- What a run has done so far: the store operations issued, in order, each with
`true` when the store answered without error, and the lines written. -/
structure World where
  ops : List (Op × Bool)
  logs : List LogLine
deriving DecidableEq, Repr

/-- The world before anything happened. -/
def World.init : World := ⟨[], []⟩

/-- Issue a store operation that the store answers with `ok`. -/
def World.issue (w : World) (op : Op) (ok : Bool) : World :=
  { w with ops := w.ops ++ [(op, ok)] }

/-- Write a line. -/
def World.log (w : World) (l : LogLine) : World :=
  { w with logs := w.logs ++ [l] }

/-- The state of a run: still going, or the process has ended. -/
inductive Res where
  | cont (w : World)
  | halt (h : Halt) (w : World)
deriving DecidableEq, Repr

/-- The world of a run state. -/
def Res.world : Res → World
  | .cont w => w
  | .halt _ w => w

/-- The way the process ended, if it did. -/
def Res.halted : Res → Option Halt
  | .cont _ => none
  | .halt h _ => some h

/-- The answers of the outside world at the program points of one cycle. -/
structure CycleEnv where
  /-- `mrand.Intn(20)` for the `k`-th robot of the insert loop. -/
  intn : Nat → Fin 20
  /-- `time.Now()` for the `k`-th robot of the insert loop. -/
  now : Nat → Int
  /-- Whether the `k`-th robot insert returns no error. -/
  insertOk : Nat → Bool
  /-- `time.Since(start)` after the insert loop, in nanoseconds. -/
  elapsedInsert : Int
  /-- Whether the `k`-th brand insert returns no error. -/
  brandOk : Nat → Bool
  /-- Whether `pipe.All` returns no error. -/
  pipeOk : Bool
  /-- `time.Since(start)` after the aggregation. -/
  elapsed0 : Int
  /-- Whether the find on `name` returns no error. -/
  findOk : Bool
  /-- `time.Since(start)` after the find on `name`. -/
  elapsed1 : Int
  /-- Whether the find on `nickname` returns no error. -/
  findNickOk : Bool
  /-- `time.Since(start)` after the find on `nickname`. -/
  elapsed2 : Int
  /-- Whether `c.Count()` returns no error. -/
  countOk : Bool
  /-- The number `c.Count()` returns. -/
  totald : Int
  /-- Whether the `k`-th `$inc` update returns no error. -/
  incOk : Nat → Bool
  /-- `time.Since(start)` after the `$inc` loop. -/
  elapsedInc : Int
  /-- Whether the `k`-th `$set` update returns no error. -/
  setOk : Nat → Bool
  /-- `time.Since(start)` after the `$set` loop. -/
  elapsedSet : Int

/-- The answers of the outside world to one worker. -/
structure WorkerEnv where
  /-- Whether `mgo.Dial` returns no error. -/
  dialOk : Bool
  /-- The answers in the `c`-th cycle. -/
  cycles : Nat → CycleEnv

/-! ## Loops -/

/-- The values of `i` in `n` iterations of a loop with step `i++` starting at `i`. -/
def loopKeys : Nat → Int → List Int
  | 0, _ => []
  | n + 1, i => i :: loopKeys n (goAdd i 1)

/-- The number of iterations of `for i := lo; i < hi; i++`: `hi - lo` when `lo < hi` and
none otherwise. -/
def tripCount (lo hi : Int) : Nat := (hi - lo).toNat

/-- The values of `i` in `for i := lo; i < hi; i++`. -/
def forRange (lo hi : Int) : List Int := loopKeys (tripCount lo hi) lo

/-- Run `body` for the given values of `i`; `k` counts the iterations.  The loop stops
as soon as the process has ended. -/
def forEach (body : Nat → Int → World → Res) : List Int → Nat → World → Res
  | [], _, w => .cont w
  | i :: rest, k, w =>
    match body k i w with
    | .cont w1 => forEach body rest (k + 1) w1
    | .halt h w1 => .halt h w1

/-- The loop `for i := 0; i < n; i++ { buffer.WriteString(token) }` for `n` iterations. -/
def writeLoop (token : String) : Nat → String → String
  | 0, buffer => buffer
  | n + 1, buffer => writeLoop token n (buffer ++ token)

/-- The string built by lines 56-59 (and 61-64): `token` written `size/len(token)`
times. -/
def filler (token : String) (size : Int) : String :=
  writeLoop token (tripCount 0 (goDiv size (len token))) ""

/-! ## `connectMongo` -/

/-- The robot built at line 73 for key `i`, drawn number `num`, description `descr` and
clock reading `now`. -/
def mkRobot (i : Int) (num : Int) (descr : String) (now : Int) : Robot :=
  let robot := "Robot-" ++ Itoa i
  let batt := goSub 100 (goMul num 5)
  ⟨robot, robot, descr, ⟨num, batt, decide (batt > 25)⟩, now⟩

/-- The SHA-1 digest of the empty input in uppercase hexadecimal:
`fmt.Sprintf("%X", sha1.New().Sum(nil))`. -/
def emptySha1 : String := "DA39A3EE5E6B4B0D3255BFEF95601890AFD80709"

/-- The per-operation average of lines 79, 136 and 149:
`time.Duration(elapsed.Nanoseconds() / int64(batch))`. -/
def perOp (elapsed batch : Int) : Option Int := goQuo elapsed batch

/-- The ratio of line 124: `elapsed2/elapsed1`. -/
def speedRatio (elapsed2 elapsed1 : Int) : Option Int := goQuo elapsed2 elapsed1

/-- The body of the insert loop, lines 70-76. -/
def insertBody (env : CycleEnv) (buffer : String) (k : Nat) (i : Int) (w : World) : Res :=
  let num : Int := ((env.intn k : Nat) : Int)
  let w1 := w.issue (.insertRobot (mkRobot i num buffer (env.now k))) (env.insertOk k)
  if env.insertOk k then .cont w1 else .halt (.exit 1) (w1.log .fatal)

/-- The body of the brand loop, lines 85-90. -/
def brandBody (env : CycleEnv) (k : Nat) (i : Int) (w : World) : Res :=
  let robot := "Robot-" ++ Itoa i
  let w1 := w.issue (.insertBrand ⟨robot, emptySha1⟩) (env.brandOk k)
  if env.brandOk k then .cont w1 else .halt (.exit 1) (w1.log .fatal)

/-- The body of the `$inc` loop, lines 128-133. -/
def incBody (env : CycleEnv) (k : Nat) (i : Int) (w : World) : Res :=
  let robot := "Robot-" ++ Itoa i
  let w1 := w.issue (.updateInc robot) (env.incOk k)
  if env.incOk k then .cont w1 else .halt (.exit 1) (w1.log .fatal)

/-- The body of the `$set` loop, lines 141-146. -/
def setBody (env : CycleEnv) (newbuf : String) (k : Nat) (i : Int) (w : World) : Res :=
  let robot := "Robot-" ++ Itoa i
  let w1 := w.issue (.updateSet robot newbuf) (env.setOk k)
  if env.setOk k then .cont w1 else .halt (.exit 1) (w1.log .fatal)

/-- The two update phases, lines 126-152. -/
def updatePhases (batch size : Int) (newbuf : String) (bnum : Int) (env : CycleEnv)
    (w : World) : Res :=
  match forEach (incBody env) (forRange bnum (goAdd bnum batch)) 0 w with
  | .halt h w1 => .halt h w1
  | .cont w1 =>
    let elapsed := env.elapsedInc
    match perOp elapsed batch with
    | none => .halt .panicDivideByZero w1
    | some avg =>
      let w2 := w1.log (.updateInc batch avg elapsed)
      match forEach (setBody env newbuf) (forRange bnum (goAdd bnum batch)) 0 w2 with
      | .halt h w3 => .halt h w3
      | .cont w3 =>
        let elapsed := env.elapsedSet
        match perOp elapsed batch with
        | none => .halt .panicDivideByZero w3
        | some avg => .cont ((w3.log (.updateSet batch avg elapsed size)).log .blank)

/-- The three lookups and the count, lines 95-124. -/
def readPhases (batch : Int) (bnum : Int) (env : CycleEnv) (w : World) : Res :=
  let robot := "Robot-" ++ Itoa (goAdd bnum (goDiv batch 2))
  let w1 := w.issue (.aggregate robot) env.pipeOk
  if env.pipeOk = false then .halt (.exit 1) (w1.log .fatal) else
  let w2 := w1.log (.matchIndexed env.elapsed0)
  let w3 := w2.issue (.findName robot) env.findOk
  if env.findOk = false then .halt (.exit 1) (w3.log .fatal) else
  let w4 := w3.log (.findIndexed env.elapsed1)
  let w5 := w4.issue (.findNickname robot) env.findNickOk
  if env.findNickOk = false then .halt (.exit 1) (w5.log .fatal) else
  let w6 := w5.log (.findUnindexed env.elapsed2)
  let w7 := w6.issue .count env.countOk
  match speedRatio env.elapsed2 env.elapsed1 with
  | none => .halt .panicDivideByZero w7
  | some ratio => .cont (w7.log (.faster ratio env.totald))

/-- One pass through the body of the endless loop, lines 68-153. -/
def cycle (batch size : Int) (once : Bool) (buffer newbuf : String) (bnum : Int)
    (env : CycleEnv) (w : World) : Res :=
  match forEach (insertBody env buffer) (forRange bnum (goAdd bnum batch)) 0 w with
  | .halt h w1 => .halt h w1
  | .cont w1 =>
    let elapsed := env.elapsedInsert
    match perOp elapsed batch with
    | none => .halt .panicDivideByZero w1
    | some avg =>
      let w2 := w1.log (.insert batch avg elapsed size)
      if once = true then
        match forEach (brandBody env) (forRange bnum (goAdd bnum batch)) 0 w2 with
        | .halt h w3 => .halt h w3
        | .cont w3 => .halt (.exit 0) w3
      else
        match readPhases batch bnum env w2 with
        | .halt h w3 => .halt h w3
        | .cont w3 => updatePhases batch size newbuf bnum env w3

/-- The endless loop of lines 67-156, for `fuel` cycles; `c` numbers the cycle.  After
each cycle `bnum = bnum + batch`. -/
def worker (batch size : Int) (once : Bool) (buffer newbuf : String)
    (cycles : Nat → CycleEnv) : Nat → Nat → Int → World → Res
  | 0, _, _, w => .cont w
  | fuel + 1, c, bnum, w =>
    match cycle batch size once buffer newbuf bnum (cycles c) w with
    | .halt h w1 => .halt h w1
    | .cont w1 => worker batch size once buffer newbuf cycles fuel (c + 1) (goAdd bnum batch) w1

/-- The function `connectMongo`, run for `fuel` cycles. -/
def connectMongo (batch size : Int) (once : Bool) (thread : Int) (env : WorkerEnv)
    (fuel : Nat) : Res :=
  if env.dialOk = false then .halt .panicDial World.init else
  let buffer := filler "simagix." size
  let newbuf := filler "MongoDB." size
  let bnum := goMul thread 100000
  worker batch size once buffer newbuf env.cycles fuel 0 bnum World.init

/-- The value of `bnum` at the start of cycle `c` (lines 66 and 154). -/
def bnumAt (thread batch : Int) : Nat → Int
  | 0 => goMul thread 100000
  | c + 1 => goAdd (bnumAt thread batch c) batch

/-- The keys the loops of a cycle starting at `bnum` run over (lines 69, 84, 127, 140). -/
def cycleKeys (bnum batch : Int) : List Int := forRange bnum (goAdd bnum batch)

/-! ## `main` -/

/-- The thread indices `main` starts a worker for, lines 233-235:
`for i := 0; i < *threads; i++ { go connectMongo(..., i) }`. -/
def workerThreads (threads : Int) : List Int := forRange 0 threads

/-- The value of the variable `mcheck` after lines 214-221, for the flag `seed` and the
random bytes `buf`. -/
def mcheck (seed : Bool) (buf : List Nat) : String :=
  if seed = false then head ++ fmtHexUpper buf else head

/-! ## Vocabulary of the statements -/

/-- A loop body that issues the store operation `mk k i` and ends the process with
`log.Fatal` when the store answers with an error. -/
def storeBody (mk : Nat → Int → Op) (ok : Nat → Bool) (k : Nat) (i : Int) (w : World) : Res :=
  let w1 := w.issue (mk k i) (ok k)
  if ok k then .cont w1 else .halt (.exit 1) (w1.log .fatal)

/-- The operations a loop over `keys` issues when all of them succeed. -/
def issuedOps (mk : Nat → Int → Op) : List Int → Nat → List (Op × Bool)
  | [], _ => []
  | i :: rest, k => (mk k i, true) :: issuedOps mk rest (k + 1)

/-- The robot insert of iteration `k` for key `i`. -/
def mkInsert (env : CycleEnv) (buffer : String) (k : Nat) (i : Int) : Op :=
  .insertRobot (mkRobot i ((env.intn k : Nat) : Int) buffer (env.now k))

/-- The brand insert for key `i`. -/
def mkBrand (_k : Nat) (i : Int) : Op := .insertBrand ⟨"Robot-" ++ Itoa i, emptySha1⟩

/-- The `$inc` update for key `i`. -/
def mkInc (_k : Nat) (i : Int) : Op := .updateInc ("Robot-" ++ Itoa i)

/-- The `$set` update for key `i`. -/
def mkSet (newbuf : String) (_k : Nat) (i : Int) : Op := .updateSet ("Robot-" ++ Itoa i) newbuf

/-- No operation of the list has failed, the counts apart. -/
def Clean (l : List (Op × Bool)) : Prop := ∀ e ∈ l, e.2 = true ∨ e.1 = Op.count

/-- The error policy as an invariant of run states: while the run goes on, and when it
ends otherwise than by `log.Fatal`, no operation but a count has failed; when it ends
by `log.Fatal`, the last operation issued is the one and only such failure. -/
def FatalInv : Res → Prop
  | .cont w => Clean w.ops
  | .halt h w =>
    (h ≠ .exit 1 ∧ Clean w.ops) ∨
      (h = .exit 1 ∧ ∃ l op, w.ops = l ++ [(op, false)] ∧ Clean l)

/-- The number a string of decimal digits denotes: the digits weighted by the powers
of ten, most significant first. -/
def decimalValue (cs : List Char) : Nat :=
  cs.foldl (fun acc c => acc * 10 + (c.toNat - 48)) 0

/-- Whether a character is a decimal digit. -/
def isDecimalDigit (c : Char) : Bool := 48 ≤ c.toNat && c.toNat ≤ 57

/-- Whether a character is an uppercase hexadecimal digit. -/
def isUpperHex (c : Char) : Bool :=
  (48 ≤ c.toNat && c.toNat ≤ 57) || (65 ≤ c.toNat && c.toNat ≤ 70)

/-- The value of an uppercase hexadecimal digit. -/
def hexValue (c : Char) : Nat := if c.toNat < 58 then c.toNat - 48 else c.toNat - 55

/-- The bytes a string of hexadecimal digits denotes, two digits per byte. -/
def decodeHex : List Char → List Nat
  | hi :: lo :: rest => (hexValue hi * 16 + hexValue lo) :: decodeHex rest
  | _ => []

/-- `bnum` after `n` cycles from `bnum`: line 154 applied `n` times. -/
def advance (batch : Int) (bnum : Int) : Nat → Int
  | 0 => bnum
  | n + 1 => goAdd (advance batch bnum n) batch

/-- A cycle environment in which every store operation succeeds. -/
def CycleEnv.AllOk (env : CycleEnv) : Prop :=
  (∀ k, env.insertOk k = true) ∧ (∀ k, env.brandOk k = true) ∧ env.pipeOk = true ∧
  env.findOk = true ∧ env.findNickOk = true ∧ env.countOk = true ∧
  (∀ k, env.incOk k = true) ∧ (∀ k, env.setOk k = true)

/-- The store operations of one full cycle in continuous mode when all succeed: the
inserts for the keys `lo .. lo+n-1`, the three lookups of the key `mid` and the count,
the `$inc` updates and the `$set` updates for the same keys, in this order. -/
def cycleTrace (env : CycleEnv) (buffer newbuf : String) (lo : Int) (n : Nat) (mid : Int) :
    List (Op × Bool) :=
  (List.range n).map (fun (k : Nat) => (mkInsert env buffer k (lo + (k : Int)), true)) ++
  [(Op.aggregate ("Robot-" ++ Itoa mid), true), (Op.findName ("Robot-" ++ Itoa mid), true),
    (Op.findNickname ("Robot-" ++ Itoa mid), true), (Op.count, true)] ++
  (List.range n).map (fun (k : Nat) => (Op.updateInc ("Robot-" ++ Itoa (lo + (k : Int))), true)) ++
  (List.range n).map (fun (k : Nat) =>
    (Op.updateSet ("Robot-" ++ Itoa (lo + (k : Int))) newbuf, true))

/-- The store operations of the one cycle of seed mode when all succeed: the inserts
for the keys `lo .. lo+n-1`, then the brand inserts for the same keys. -/
def seedTrace (env : CycleEnv) (buffer : String) (lo : Int) (n : Nat) : List (Op × Bool) :=
  (List.range n).map (fun (k : Nat) => (mkInsert env buffer k (lo + (k : Int)), true)) ++
  (List.range n).map (fun (k : Nat) =>
    (Op.insertBrand ⟨"Robot-" ++ Itoa (lo + (k : Int)), emptySha1⟩, true))

/-- World `w1` continues world `w`: its operations are those of `w` followed by
operations that all satisfy `P`. -/
def WExt (P : Op × Bool → Prop) (w1 w : World) : Prop :=
  ∃ seg, w1.ops = w.ops ++ seg ∧ ∀ e ∈ seg, P e

/-- One of the three lookups of the key named `kn`, or the count. -/
def LookupOp (kn : String) (e : Op × Bool) : Prop :=
  e.1 = .aggregate kn ∨ e.1 = .findName kn ∨ e.1 = .findNickname kn ∨ e.1 = .count

/-- An update of the `$inc` or of the `$set` loop. -/
def UpdateOp (e : Op × Bool) : Prop :=
  (∃ n, e.1 = .updateInc n) ∨ (∃ n d, e.1 = .updateSet n d)

/-- Sample answers of the outside world: every operation succeeds. -/
def sampleEnv : CycleEnv where
  intn := fun _ => 3
  now := fun _ => 0
  insertOk := fun _ => true
  elapsedInsert := 10
  brandOk := fun _ => true
  pipeOk := true
  elapsed0 := 5
  findOk := true
  elapsed1 := 2
  findNickOk := true
  elapsed2 := 9
  countOk := true
  totald := 7
  incOk := fun _ => true
  elapsedInc := 4
  setOk := fun _ => true
  elapsedSet := 6

/-- Sample answers: as `sampleEnv`, but `c.Count()` returns an error. -/
def sampleEnvCountFails : CycleEnv := { sampleEnv with countOk := false }

/-- Sample answers: as `sampleEnv`, but the second robot insert returns an error. -/
def sampleEnvInsertFails : CycleEnv := { sampleEnv with insertOk := fun k => k != 1 }

/-- Sample answers: as `sampleEnv`, but the find on `name` takes no measurable time. -/
def sampleEnvZeroFind : CycleEnv := { sampleEnv with elapsed1 := 0 }

/-- The process has not ended by an integer division by zero. -/
def NoDivPanic (r : Res) : Prop := r.halted ≠ some .panicDivideByZero

/-! ## Lemmas -/

theorem wrapInt_eq {x : Int} (h1 : minInt ≤ x) (h2 : x ≤ maxInt) : wrapInt x = x := by
  unfold wrapInt
  unfold minInt at h1
  unfold maxInt at h2
  omega

theorem wrapInt_range (x : Int) : minInt ≤ wrapInt x ∧ wrapInt x ≤ maxInt := by
  unfold wrapInt minInt maxInt
  omega

theorem wrapInt_idem (x : Int) : wrapInt (wrapInt x) = wrapInt x :=
  wrapInt_eq (wrapInt_range x).1 (wrapInt_range x).2

theorem loopKeys_eq (n : Nat) (i : Int) (h1 : minInt ≤ i) (h2 : i + n ≤ maxInt + 1) :
    loopKeys n i = (List.range n).map (fun (j : Nat) => i + (j : Int)) := by
  induction n generalizing i with
  | zero => rfl
  | succ n ih =>
    rw [loopKeys, List.range_succ_eq_map, List.map_cons, List.map_map]
    congr 1
    · simp
    · cases n with
      | zero => rfl
      | succ m =>
        have e : goAdd i 1 = i + 1 := by
          unfold goAdd
          apply wrapInt_eq <;> push_cast at h2 <;> omega
        rw [e, ih (i + 1) (by omega) (by push_cast at h2 ⊢; omega)]
        apply List.map_congr_left
        intro j _
        simp only [Function.comp, Nat.succ_eq_add_one]
        push_cast
        ring

theorem insertBody_eq (env : CycleEnv) (buffer : String) :
    insertBody env buffer = storeBody (mkInsert env buffer) env.insertOk := rfl

theorem brandBody_eq (env : CycleEnv) : brandBody env = storeBody mkBrand env.brandOk := rfl

theorem incBody_eq (env : CycleEnv) : incBody env = storeBody mkInc env.incOk := rfl

theorem setBody_eq (env : CycleEnv) (newbuf : String) :
    setBody env newbuf = storeBody (mkSet newbuf) env.setOk := rfl

theorem forEach_store_ok (mk : Nat → Int → Op) (ok : Nat → Bool) (keys : List Int) (k : Nat)
    (w : World) (h : ∀ j, j < keys.length → ok (k + j) = true) :
    forEach (storeBody mk ok) keys k w = .cont ⟨w.ops ++ issuedOps mk keys k, w.logs⟩ := by
  induction keys generalizing k w with
  | nil => simp [forEach, issuedOps]
  | cons i rest ih =>
    have h0 : ok k = true := by simpa using h 0 (by simp)
    have h1 : ∀ j, j < rest.length → ok (k + 1 + j) = true := by
      intro j hj
      have := h (j + 1) (by simpa using hj)
      rwa [show k + 1 + j = k + (j + 1) by omega]
    simp only [forEach, storeBody, h0, if_true]
    rw [ih (k + 1) _ h1]
    simp [World.issue, issuedOps]

theorem forEach_store_cont (mk : Nat → Int → Op) (ok : Nat → Bool) (keys : List Int) (k : Nat)
    (w w1 : World) (h : forEach (storeBody mk ok) keys k w = .cont w1) :
    ∀ j, j < keys.length → ok (k + j) = true := by
  induction keys generalizing k w with
  | nil => intro j hj; simp at hj
  | cons i rest ih =>
    simp only [forEach, storeBody] at h
    cases h0 : ok k with
    | false => simp [h0] at h
    | true =>
      simp only [h0, if_true] at h
      intro j hj
      cases j with
      | zero => simpa using h0
      | succ j =>
        have := ih (k + 1) _ h j (by simpa using hj)
        rwa [show k + 1 + j = k + (j + 1) by omega] at this

theorem forEach_store_halt (mk : Nat → Int → Op) (ok : Nat → Bool) (keys : List Int) (k : Nat)
    (w w1 : World) (hlt : Halt) (h : forEach (storeBody mk ok) keys k w = .halt hlt w1) :
    hlt = .exit 1 := by
  induction keys generalizing k w with
  | nil => simp [forEach] at h
  | cons i rest ih =>
    simp only [forEach, storeBody] at h
    cases h0 : ok k with
    | false =>
      simp [h0] at h
      exact h.1.symm
    | true =>
      simp only [h0, if_true] at h
      exact ih _ _ h

theorem forEach_store_seg (P : Op × Bool → Prop) (mk : Nat → Int → Op) (ok : Nat → Bool)
    (hP : ∀ k i b, P (mk k i, b)) (keys : List Int) (k : Nat) (w : World) :
    ∃ seg, (forEach (storeBody mk ok) keys k w).world.ops = w.ops ++ seg ∧ ∀ e ∈ seg, P e := by
  induction keys generalizing k w with
  | nil => exact ⟨[], by simp [forEach, Res.world]⟩
  | cons i rest ih =>
    simp only [forEach, storeBody]
    cases h0 : ok k with
    | false =>
      refine ⟨[(mk k i, false)], by simp [Res.world, World.issue, World.log], ?_⟩
      intro e he
      simp at he
      subst he
      exact hP _ _ _
    | true =>
      simp only [if_true]
      obtain ⟨seg, h1, h2⟩ := ih (k + 1) (w.issue (mk k i) true)
      refine ⟨(mk k i, true) :: seg, ?_, ?_⟩
      · show (forEach (storeBody mk ok) rest (k + 1) (w.issue (mk k i) true)).world.ops = _
        rw [h1]
        simp [World.issue]
      · intro e he
        rcases List.mem_cons.1 he with rfl | he
        · exact hP _ _ _
        · exact h2 e he

theorem clean_issue_true {w : World} (h : Clean w.ops) (op : Op) : Clean (w.issue op true).ops := by
  intro e he
  simp only [World.issue, List.mem_append, List.mem_singleton] at he
  rcases he with he | rfl
  · exact h e he
  · exact Or.inl rfl

theorem clean_issue_count {w : World} (h : Clean w.ops) (b : Bool) :
    Clean (w.issue .count b).ops := by
  intro e he
  simp only [World.issue, List.mem_append, List.mem_singleton] at he
  rcases he with he | rfl
  · exact h e he
  · exact Or.inr rfl

theorem clean_log {w : World} (h : Clean w.ops) (l : LogLine) : Clean (w.log l).ops := h

theorem fatalInv_fail {w : World} (h : Clean w.ops) (op : Op) :
    FatalInv (.halt (.exit 1) ((w.issue op false).log .fatal)) :=
  Or.inr ⟨rfl, w.ops, op, rfl, h⟩

theorem fatalInv_seq (r : Res) (f : World → Res) (hr : FatalInv r)
    (hf : ∀ w, Clean w.ops → FatalInv (f w)) :
    FatalInv (match r with
      | .halt h w1 => .halt h w1
      | .cont w1 => f w1) := by
  cases r with
  | cont w => exact hf w hr
  | halt h w => exact hr

theorem storeBody_inv (mk : Nat → Int → Op) (ok : Nat → Bool) (k : Nat) (i : Int) (w : World)
    (h : Clean w.ops) : FatalInv (storeBody mk ok k i w) := by
  unfold storeBody
  cases h0 : ok k with
  | false => exact fatalInv_fail h _
  | true => exact clean_issue_true h _

theorem forEach_inv (body : Nat → Int → World → Res)
    (hb : ∀ k i w, Clean w.ops → FatalInv (body k i w)) (keys : List Int) (k : Nat) (w : World)
    (h : Clean w.ops) : FatalInv (forEach body keys k w) := by
  induction keys generalizing k w with
  | nil => exact h
  | cons i rest ih =>
    unfold forEach
    have := hb k i w h
    cases hr : body k i w with
    | cont w1 =>
      rw [hr] at this
      exact ih _ _ this
    | halt hl w1 =>
      rw [hr] at this
      exact this

theorem readPhases_inv (batch bnum : Int) (env : CycleEnv) (w : World) (h : Clean w.ops) :
    FatalInv (readPhases batch bnum env w) := by
  unfold readPhases
  simp only
  split
  · rename_i hp; rw [hp]; exact fatalInv_fail h _
  rename_i hp
  have hp : env.pipeOk = true := by simpa using hp
  rw [hp]
  have c1 := clean_log (clean_issue_true h (.aggregate ("Robot-" ++ Itoa (goAdd bnum (goDiv batch 2)))))
    (.matchIndexed env.elapsed0)
  split
  · rename_i hf; rw [hf]; exact fatalInv_fail c1 _
  rename_i hf
  have hf : env.findOk = true := by simpa using hf
  rw [hf]
  have c2 := clean_log (clean_issue_true c1 (.findName ("Robot-" ++ Itoa (goAdd bnum (goDiv batch 2)))))
    (.findIndexed env.elapsed1)
  split
  · rename_i hn; rw [hn]; exact fatalInv_fail c2 _
  rename_i hn
  have hn : env.findNickOk = true := by simpa using hn
  rw [hn]
  have c3 := clean_issue_count (clean_log (clean_issue_true c2
    (.findNickname ("Robot-" ++ Itoa (goAdd bnum (goDiv batch 2))))) (.findUnindexed env.elapsed2))
    env.countOk
  split
  · exact Or.inl ⟨by simp, c3⟩
  · exact clean_log c3 _

theorem updatePhases_inv (batch size : Int) (newbuf : String) (bnum : Int) (env : CycleEnv)
    (w : World) (h : Clean w.ops) : FatalInv (updatePhases batch size newbuf bnum env w) := by
  unfold updatePhases
  apply fatalInv_seq _ _ (forEach_inv _ (storeBody_inv _ _) _ _ _ h)
  intro w1 h1
  dsimp only
  split
  · exact Or.inl ⟨by simp, h1⟩
  · apply fatalInv_seq _ _ (forEach_inv _ (storeBody_inv _ _) _ _ _ (clean_log h1 _))
    intro w3 h3
    dsimp only
    split
    · exact Or.inl ⟨by simp, h3⟩
    · exact clean_log (clean_log h3 _) _

theorem cycle_inv (batch size : Int) (once : Bool) (buffer newbuf : String) (bnum : Int)
    (env : CycleEnv) (w : World) (h : Clean w.ops) :
    FatalInv (cycle batch size once buffer newbuf bnum env w) := by
  unfold cycle
  apply fatalInv_seq _ _ (forEach_inv _ (storeBody_inv _ _) _ _ _ h)
  intro w1 h1
  dsimp only
  split
  · exact Or.inl ⟨by simp, h1⟩
  · split
    · apply fatalInv_seq _ _ (forEach_inv _ (storeBody_inv _ _) _ _ _ (clean_log h1 _))
      intro w3 h3
      exact Or.inl ⟨by simp, h3⟩
    · exact fatalInv_seq _ _ (readPhases_inv _ _ _ _ (clean_log h1 _))
        (fun w3 h3 => updatePhases_inv _ _ _ _ _ _ h3)

theorem worker_inv (batch size : Int) (once : Bool) (buffer newbuf : String)
    (cycles : Nat → CycleEnv) (fuel c : Nat) (bnum : Int) (w : World) (h : Clean w.ops) :
    FatalInv (worker batch size once buffer newbuf cycles fuel c bnum w) := by
  induction fuel generalizing c bnum w with
  | zero => exact h
  | succ fuel ih =>
    unfold worker
    exact fatalInv_seq _ _ (cycle_inv _ _ _ _ _ _ _ _ h) (fun w1 h1 => ih _ _ _ h1)

theorem connectMongo_inv (batch size : Int) (once : Bool) (thread : Int) (env : WorkerEnv)
    (fuel : Nat) : FatalInv (connectMongo batch size once thread env fuel) := by
  unfold connectMongo
  split
  · exact Or.inl ⟨by simp, by intro e he; simp [World.init] at he⟩
  · exact worker_inv _ _ _ _ _ _ _ _ _ _ (by intro e he; simp [World.init] at he)

theorem fatalInv_last {r : Res} (hr : FatalInv r) (p : Nat) (op : Op)
    (hp : r.world.ops[p]? = some (op, false)) (hop : op ≠ .count) :
    p + 1 = r.world.ops.length ∧ r.halted = some (.exit 1) := by
  have hmem : ∀ l : List (Op × Bool), Clean l → l[p]? = some (op, false) → False := by
    intro l hl hget
    have := hl _ (List.getElem?_mem hget)
    simp at this
    exact hop this
  cases r with
  | cont w => exact (hmem _ hr hp).elim
  | halt h w =>
    rcases hr with ⟨_, hc⟩ | ⟨rfl, l, op1, hops, hc⟩
    · exact (hmem _ hc hp).elim
    · simp only [Res.world] at hp ⊢
      rw [hops] at hp ⊢
      refine ⟨?_, rfl⟩
      by_cases hlt : p < l.length
      · rw [List.getElem?_append_left hlt] at hp
        exact (hmem _ hc hp).elim
      · have hlen := (List.getElem?_eq_some_iff.1 hp).1
        simp at hlen ⊢
        omega

theorem digitChar_value (d : Nat) (h : d < 10) : (Nat.digitChar d).toNat - 48 = d := by
  interval_cases d <;> rfl

theorem digitChar_isDigit (d : Nat) (h : d < 10) : isDecimalDigit (Nat.digitChar d) = true := by
  interval_cases d <;> rfl

theorem toDigitsCore_value0 (fuel n : Nat) (ds : List Char) (h : n < fuel) :
    (Nat.toDigitsCore 10 fuel n ds).foldl (fun acc c => acc * 10 + (c.toNat - 48)) 0
      = ds.foldl (fun acc c => acc * 10 + (c.toNat - 48)) n := by
  induction fuel generalizing n ds with
  | zero => omega
  | succ fuel ih =>
    unfold Nat.toDigitsCore
    dsimp only
    split
    · rename_i h0
      have hn : n < 10 := by omega
      simp [List.foldl_cons, Nat.mod_eq_of_lt hn, digitChar_value n hn]
    · rename_i h0
      rw [ih (n / 10) _ (by omega)]
      simp only [List.foldl_cons]
      rw [digitChar_value _ (Nat.mod_lt _ (by norm_num))]
      congr 1
      omega

theorem decimalValue_repr (n : Nat) : decimalValue (Nat.repr n).data = n := by
  unfold decimalValue Nat.repr Nat.toDigits
  simpa using toDigitsCore_value0 (n + 1) n [] (by omega)

theorem decimalValue_Itoa (i : Int) (h : 0 ≤ i) : (decimalValue (Itoa i).data : Int) = i := by
  unfold Itoa
  rw [if_neg (by omega), decimalValue_repr]
  omega

theorem Itoa_injective (i j : Int) (hi : 0 ≤ i) (hj : 0 ≤ j) (h : Itoa i = Itoa j) : i = j := by
  rw [← decimalValue_Itoa i hi, ← decimalValue_Itoa j hj, h]

theorem robotName_injective (i j : Int) (hi : 0 ≤ i) (hj : 0 ≤ j)
    (h : "Robot-" ++ Itoa i = "Robot-" ++ Itoa j) : i = j := by
  apply Itoa_injective i j hi hj
  have := congrArg String.data h
  simp only [String.data_append] at this
  exact String.ext (List.append_cancel_left this)

theorem hexDigit_value (d : Nat) (h : d < 16) : hexValue (hexDigitUpper d) = d := by
  interval_cases d <;> rfl

theorem hexDigit_isUpper (d : Nat) (h : d < 16) : isUpperHex (hexDigitUpper d) = true := by
  interval_cases d <;> rfl

theorem decodeHex_flatMap (buf : List Nat) (hb : ∀ b ∈ buf, b < 256) :
    decodeHex (buf.flatMap fun b => [hexDigitUpper (b % 256 / 16), hexDigitUpper (b % 16)])
      = buf := by
  induction buf with
  | nil => rfl
  | cons b rest ih =>
    have hb0 : b < 256 := hb b (by simp)
    show (hexValue (hexDigitUpper (b % 256 / 16)) * 16 + hexValue (hexDigitUpper (b % 16))) ::
      decodeHex (rest.flatMap fun b => [hexDigitUpper (b % 256 / 16), hexDigitUpper (b % 16)])
        = b :: rest
    rw [ih (fun x hx => hb x (by simp [hx]))]
    rw [hexDigit_value _ (by omega), hexDigit_value _ (by omega)]
    congr 1
    omega

theorem decodeHex_fmt (buf : List Nat) (hb : ∀ b ∈ buf, b < 256) :
    decodeHex (fmtHexUpper buf).data = buf :=
  decodeHex_flatMap buf hb

theorem fmtHexUpper_length (buf : List Nat) : (fmtHexUpper buf).length = 2 * buf.length := by
  unfold fmtHexUpper
  induction buf with
  | nil => rfl
  | cons b rest ih =>
    simp only [String.length, List.flatMap_cons, List.cons_append, List.nil_append,
      List.length_cons] at ih ⊢
    omega

theorem fmtHexUpper_chars (buf : List Nat) : ∀ c ∈ (fmtHexUpper buf).data, isUpperHex c = true := by
  unfold fmtHexUpper
  intro c hc
  simp only [List.mem_flatMap, List.mem_cons, List.mem_singleton] at hc
  obtain ⟨b, _, hc⟩ := hc
  simp at hc
  rcases hc with rfl | rfl
  · exact hexDigit_isUpper _ (by omega)
  · exact hexDigit_isUpper _ (by omega)

theorem goDiv_nonneg_eq (a b : Int) (ha : 0 ≤ a) (ha2 : a ≤ maxInt) (hb : 0 < b) :
    goDiv a b = a / b := by
  unfold goDiv
  rw [Int.tdiv_eq_ediv ha (le_of_lt hb)]
  apply wrapInt_eq
  · have := Int.ediv_nonneg ha (le_of_lt hb)
    unfold minInt; omega
  · have : a / b ≤ a := Int.ediv_le_self b ha
    omega

theorem writeLoop_length (token : String) (n : Nat) (buffer : String) :
    (writeLoop token n buffer).length = buffer.length + n * token.length := by
  induction n generalizing buffer with
  | zero => simp [writeLoop]
  | succ n ih =>
    rw [writeLoop, ih, String.length_append]
    ring

theorem filler_len (size : Int) (h0 : 0 ≤ size) (h1 : size ≤ maxInt) :
    len (filler "simagix." size) = 8 * (size / 8) := by
  have hl : len "simagix." = 8 := by decide
  unfold filler
  rw [hl, goDiv_nonneg_eq size 8 h0 h1 (by norm_num)]
  unfold len tripCount
  rw [writeLoop_length]
  have h8 : "simagix.".length = 8 := by decide
  rw [h8]
  have : ("".length : Nat) = 0 := rfl
  rw [this]
  have hq : 0 ≤ size / 8 := Int.ediv_nonneg h0 (by norm_num)
  push_cast
  rw [sub_zero, Int.toNat_of_nonneg hq]
  ring

theorem toDigitsCore_digits (fuel n : Nat) (ds : List Char) :
    ∀ c ∈ Nat.toDigitsCore 10 fuel n ds, isDecimalDigit c = true ∨ c ∈ ds := by
  induction fuel generalizing n ds with
  | zero => intro c hc; exact Or.inr hc
  | succ fuel ih =>
    intro c hc
    unfold Nat.toDigitsCore at hc
    dsimp only at hc
    have hd := digitChar_isDigit (n % 10) (Nat.mod_lt _ (by norm_num))
    split at hc
    · rcases List.mem_cons.1 hc with rfl | hc
      · exact Or.inl hd
      · exact Or.inr hc
    · rcases ih _ _ c hc with h | h
      · exact Or.inl h
      · rcases List.mem_cons.1 h with rfl | h
        · exact Or.inl hd
        · exact Or.inr h

theorem toDigitsCore_ne_nil (fuel n : Nat) (ds : List Char) (h : ds ≠ []) :
    Nat.toDigitsCore 10 fuel n ds ≠ [] := by
  induction fuel generalizing n ds with
  | zero => exact h
  | succ fuel ih =>
    unfold Nat.toDigitsCore
    dsimp only
    split
    · simp
    · exact ih _ _ (by simp)

theorem Itoa_digits (i : Int) (h : 0 ≤ i) :
    (∀ c ∈ (Itoa i).data, isDecimalDigit c = true) ∧ (Itoa i).data ≠ [] := by
  unfold Itoa
  rw [if_neg (by omega)]
  unfold Nat.repr Nat.toDigits
  constructor
  · intro c hc
    rcases toDigitsCore_digits _ _ _ c hc with h | h
    · exact h
    · simp at h
  · show Nat.toDigitsCore 10 (i.toNat + 1) i.toNat [] ≠ []
    unfold Nat.toDigitsCore
    dsimp only
    split
    · simp
    · exact toDigitsCore_ne_nil _ _ _ (by simp)

theorem cycleKeys_eq (bnum b : Int) (h0 : minInt ≤ bnum) (h1 : 0 ≤ b) (h2 : bnum + b ≤ maxInt) :
    cycleKeys bnum b = (List.range b.toNat).map (fun (k : Nat) => bnum + (k : Int)) := by
  unfold cycleKeys forRange tripCount goAdd
  rw [wrapInt_eq (by omega) h2]
  have : (bnum + b - bnum).toNat = b.toNat := by congr 1; omega
  rw [this]
  apply loopKeys_eq _ _ h0
  rw [Int.toNat_of_nonneg h1]
  omega

theorem mem_cycleKeys (bnum b key : Int) (h0 : minInt ≤ bnum) (h1 : 0 ≤ b)
    (h2 : bnum + b ≤ maxInt) : key ∈ cycleKeys bnum b ↔ bnum ≤ key ∧ key < bnum + b := by
  rw [cycleKeys_eq bnum b h0 h1 h2]
  simp only [List.mem_map, List.mem_range]
  constructor
  · rintro ⟨k, hk, rfl⟩
    omega
  · rintro ⟨h3, h4⟩
    exact ⟨(key - bnum).toNat, by omega, by omega⟩

theorem issuedOps_range (mk : Nat → Int → Op) (n : Nat) (i : Int) (k : Nat) :
    issuedOps mk ((List.range n).map (fun (j : Nat) => i + (j : Int))) k
      = (List.range n).map (fun (j : Nat) => (mk (k + j) (i + (j : Int)), true)) := by
  induction n generalizing i k with
  | zero => rfl
  | succ n ih =>
    rw [List.range_succ_eq_map]
    simp only [List.map_cons, List.map_map, issuedOps]
    congr 1
    have e : ((fun (j : Nat) => i + (j : Int)) ∘ Nat.succ)
        = fun (j : Nat) => (i + 1) + (j : Int) := by
      funext j
      simp only [Function.comp, Nat.succ_eq_add_one]
      push_cast
      ring
    rw [e, ih]
    apply List.map_congr_left
    intro j _
    simp only [Function.comp, Nat.succ_eq_add_one]
    congr 2
    · omega
    · push_cast
      ring

theorem advance_shift (batch bnum : Int) (n : Nat) :
    advance batch (goAdd bnum batch) n = advance batch bnum (n + 1) := by
  induction n with
  | zero => rfl
  | succ n ih => rw [advance, ih]; rfl

theorem bnumAt_eq_advance (thread batch : Int) (c : Nat) :
    bnumAt thread batch c = advance batch (goMul thread 100000) c := by
  induction c with
  | zero => rfl
  | succ c ih => rw [bnumAt, ih]; rfl

theorem bnumAt_eq (t b : Int) (c : Nat) (ht : 0 ≤ t) (hb : 0 ≤ b)
    (h : t * 100000 + (c : Int) * b ≤ maxInt) : bnumAt t b c = t * 100000 + (c : Int) * b := by
  induction c with
  | zero =>
    simp only [bnumAt, goMul, Nat.cast_zero, zero_mul, add_zero] at h ⊢
    exact wrapInt_eq (by unfold minInt; omega) h
  | succ c ih =>
    have e : ((c + 1 : Nat) : Int) * b = (c : Int) * b + b := by push_cast; ring
    rw [e] at h ⊢
    have hc : 0 ≤ (c : Int) * b := mul_nonneg (by omega) hb
    rw [bnumAt, ih (by omega)]
    unfold goAdd
    rw [wrapInt_eq (by unfold minInt; omega) (by omega)]
    ring

theorem worker_succ (batch size : Int) (once : Bool) (buffer newbuf : String)
    (cycles : Nat → CycleEnv) (fuel c : Nat) (bnum : Int) (w : World) :
    worker batch size once buffer newbuf cycles (fuel + 1) c bnum w =
      match worker batch size once buffer newbuf cycles fuel c bnum w with
      | .halt h w1 => .halt h w1
      | .cont w1 =>
        cycle batch size once buffer newbuf (advance batch bnum fuel) (cycles (c + fuel)) w1 := by
  induction fuel generalizing c bnum w with
  | zero =>
    simp only [worker, advance, Nat.add_zero]
    cases cycle batch size once buffer newbuf bnum (cycles c) w <;> rfl
  | succ fuel ih =>
    rw [worker]
    cases hc : cycle batch size once buffer newbuf bnum (cycles c) w with
    | halt h w1 => simp [worker, hc]
    | cont w1 =>
      simp only []
      rw [ih]
      conv_rhs => rw [worker, hc]
      simp only []
      rw [advance_shift, show c + 1 + fuel = c + (fuel + 1) by omega]

theorem worker_halt_mono (batch size : Int) (once : Bool) (buffer newbuf : String)
    (cycles : Nat → CycleEnv) (fuel m c : Nat) (bnum : Int) (w w1 : World) (h : Halt)
    (hw : worker batch size once buffer newbuf cycles fuel c bnum w = .halt h w1) :
    worker batch size once buffer newbuf cycles (fuel + m) c bnum w = .halt h w1 := by
  induction fuel generalizing c bnum w with
  | zero => simp [worker] at hw
  | succ fuel ih =>
    rw [show fuel + 1 + m = (fuel + m) + 1 by omega]
    rw [worker] at hw ⊢
    cases hc : cycle batch size once buffer newbuf bnum (cycles c) w with
    | halt h2 w2 => rw [hc] at hw; exact hw
    | cont w2 =>
      rw [hc] at hw
      exact ih _ _ _ hw

theorem goDiv_two (b : Int) (h0 : 0 ≤ b) (h1 : b ≤ maxInt) : goDiv b 2 = b / 2 :=
  goDiv_nonneg_eq b 2 h0 h1 (by norm_num)

/-- A full cycle in continuous mode in which every store operation succeeds. -/
theorem cycle_ok (b size : Int) (buffer newbuf : String) (bnum : Int) (env : CycleEnv)
    (w : World) (h0 : 0 ≤ bnum) (hb : 1 ≤ b) (h2 : bnum + b ≤ maxInt)
    (hok : env.AllOk) (he : env.elapsed1 ≠ 0) :
    ∃ w1, cycle b size false buffer newbuf bnum env w = .cont w1 ∧
      w1.ops = w.ops ++ cycleTrace env buffer newbuf bnum b.toNat (bnum + b / 2) := by
  obtain ⟨hi, _, hp, hf, hn, hc, hinc, hset⟩ := hok
  have hmax : maxInt = 9223372036854775807 := rfl
  have hmin : minInt = -9223372036854775808 := rfl
  have hkeys : forRange bnum (goAdd bnum b)
      = (List.range b.toNat).map (fun (k : Nat) => bnum + (k : Int)) :=
    cycleKeys_eq bnum b (by omega) (by omega) h2
  have hb0 : b ≠ 0 := by omega
  have hmid : goAdd bnum (goDiv b 2) = bnum + b / 2 := by
    rw [goDiv_two b (by omega) (by omega)]
    exact wrapInt_eq (by omega) (by omega)
  unfold cycle
  rw [insertBody_eq, forEach_store_ok _ _ _ _ _ (fun j _ => hi _), hkeys, issuedOps_range]
  simp only [perOp, goQuo, hb0, if_false, Bool.false_eq_true]
  unfold readPhases
  simp only [hp, hf, hn, hc, hmid, speedRatio, goQuo, he, if_false, Bool.true_eq_false]
  unfold updatePhases
  rw [incBody_eq, forEach_store_ok _ _ _ _ _ (fun j _ => hinc _), hkeys, issuedOps_range]
  simp only [perOp, goQuo, hb0, if_false]
  rw [setBody_eq, forEach_store_ok _ _ _ _ _ (fun j _ => hset _), issuedOps_range]
  refine ⟨_, rfl, ?_⟩
  simp [World.issue, World.log, cycleTrace, mkInc, mkSet]

theorem wext_refl (P : Op × Bool → Prop) (w : World) : WExt P w w :=
  ⟨[], by simp, by simp⟩

theorem wext_issue {P : Op × Bool → Prop} {w1 w : World} (h : WExt P w1 w) (op : Op) (b : Bool)
    (hp : P (op, b)) : WExt P (w1.issue op b) w := by
  obtain ⟨seg, h1, h2⟩ := h
  refine ⟨seg ++ [(op, b)], by simp [World.issue, h1], ?_⟩
  intro e he
  rcases List.mem_append.1 he with he | he
  · exact h2 e he
  · simp at he
    subst he
    exact hp

theorem wext_log {P : Op × Bool → Prop} {w1 w : World} (h : WExt P w1 w) (l : LogLine) :
    WExt P (w1.log l) w := h

theorem wext_trans {P : Op × Bool → Prop} {w2 w1 w : World} (h2 : WExt P w2 w1)
    (h1 : WExt P w1 w) : WExt P w2 w := by
  obtain ⟨s2, e2, p2⟩ := h2
  obtain ⟨s1, e1, p1⟩ := h1
  refine ⟨s1 ++ s2, by rw [e2, e1, List.append_assoc], ?_⟩
  intro e he
  rcases List.mem_append.1 he with he | he
  · exact p1 e he
  · exact p2 e he

theorem wext_seq {P : Op × Bool → Prop} (r : Res) (f : World → Res) (w : World) :
    WExt P r.world w → (∀ w1, WExt P (f w1).world w1) →
    WExt P (Res.world (match r with
      | .halt h w1 => Res.halt h w1
      | .cont w1 => f w1)) w := by
  intro hr hf
  cases r with
  | cont w1 => exact wext_trans (hf w1) hr
  | halt h w1 => exact hr

theorem forEach_store_wext (P : Op × Bool → Prop) (mk : Nat → Int → Op) (ok : Nat → Bool)
    (hP : ∀ k i b, P (mk k i, b)) (keys : List Int) (k : Nat) (w : World) :
    WExt P (forEach (storeBody mk ok) keys k w).world w :=
  forEach_store_seg P mk ok hP keys k w

theorem readPhases_wext (b bnum : Int) (env : CycleEnv) (w : World) :
    WExt (LookupOp ("Robot-" ++ Itoa (goAdd bnum (goDiv b 2)))) (readPhases b bnum env w).world w := by
  have a1 : ∀ l : LogLine, WExt (LookupOp ("Robot-" ++ Itoa (goAdd bnum (goDiv b 2))))
      ((w.issue (Op.aggregate ("Robot-" ++ Itoa (goAdd bnum (goDiv b 2)))) env.pipeOk).log l) w :=
    fun l => wext_log (wext_issue (wext_refl _ w) _ _ (Or.inl rfl)) l
  have a2 := fun (l : LogLine) => wext_log (wext_issue (a1 (LogLine.matchIndexed env.elapsed0))
    (Op.findName ("Robot-" ++ Itoa (goAdd bnum (goDiv b 2)))) env.findOk (Or.inr (Or.inl rfl))) l
  have a3 := fun (l : LogLine) => wext_log (wext_issue (a2 (LogLine.findIndexed env.elapsed1))
    (Op.findNickname ("Robot-" ++ Itoa (goAdd bnum (goDiv b 2)))) env.findNickOk
    (Or.inr (Or.inr (Or.inl rfl)))) l
  have a4 := wext_issue (a3 (LogLine.findUnindexed env.elapsed2)) Op.count env.countOk
    (Or.inr (Or.inr (Or.inr rfl)))
  unfold readPhases
  dsimp only
  split
  · exact a1 _
  split
  · exact a2 _
  split
  · exact a3 _
  split
  · exact a4
  · exact wext_log a4 _

theorem updatePhases_wext (b size : Int) (newbuf : String) (bnum : Int) (env : CycleEnv)
    (w : World) : WExt UpdateOp (updatePhases b size newbuf bnum env w).world w := by
  unfold updatePhases
  rw [incBody_eq, setBody_eq]
  have h1 := forEach_store_wext UpdateOp mkInc env.incOk (fun k i b => Or.inl ⟨_, rfl⟩)
    (forRange bnum (goAdd bnum b)) 0 w
  refine wext_seq _ _ _ h1 ?_
  intro w1
  dsimp only
  split
  · exact wext_refl _ _
  · rename_i avg _
    have h2 := forEach_store_wext UpdateOp (mkSet newbuf) env.setOk
      (fun k i b => Or.inr ⟨_, _, rfl⟩) (forRange bnum (goAdd bnum b)) 0
      (w1.log (LogLine.updateInc b avg env.elapsedInc))
    refine wext_seq _ _ _ h2 ?_
    intro w3
    dsimp only
    split
    · exact wext_refl _ _
    · exact wext_log (wext_log (wext_refl _ _) _) _

theorem readPhases_ok_ops (b bnum : Int) (env : CycleEnv) (w : World) (hp : env.pipeOk = true)
    (hf : env.findOk = true) (hn : env.findNickOk = true) :
    (readPhases b bnum env w).world.ops = w.ops ++
      [(Op.aggregate ("Robot-" ++ Itoa (goAdd bnum (goDiv b 2))), true),
       (Op.findName ("Robot-" ++ Itoa (goAdd bnum (goDiv b 2))), true),
       (Op.findNickname ("Robot-" ++ Itoa (goAdd bnum (goDiv b 2))), true),
       (Op.count, env.countOk)] := by
  unfold readPhases
  simp only [hp, hf, hn, Bool.true_eq_false, if_false]
  split <;> simp [Res.world, World.issue, World.log]

theorem lookups_then_updates (b size : Int) (newbuf : String) (bnum : Int) (env : CycleEnv)
    (w : World) :
    ∃ segR segU,
      (Res.world (match readPhases b bnum env w with
        | .halt h w3 => Res.halt h w3
        | .cont w3 => updatePhases b size newbuf bnum env w3)).ops = w.ops ++ segR ++ segU ∧
      (readPhases b bnum env w).world.ops = w.ops ++ segR ∧
      (∀ e ∈ segR, LookupOp ("Robot-" ++ Itoa (goAdd bnum (goDiv b 2))) e) ∧
      ∀ e ∈ segU, UpdateOp e := by
  obtain ⟨segR, hR, pR⟩ := readPhases_wext b bnum env w
  cases hrd : readPhases b bnum env w with
  | halt h w3 =>
    rw [hrd] at hR
    exact ⟨segR, [], by simpa [Res.world] using hR, hR, pR, by simp⟩
  | cont w3 =>
    rw [hrd] at hR
    obtain ⟨segU, hU, pU⟩ := updatePhases_wext b size newbuf bnum env w3
    refine ⟨segR, segU, ?_, hR, pR, pU⟩
    simp only [Res.world] at hR
    simp only [hU, hR]

theorem midpoint_eq (bnum b : Int) (h0 : 0 ≤ bnum) (hb : 1 ≤ b) (h2 : bnum + b ≤ maxInt) :
    goAdd bnum (goDiv b 2) = bnum + b / 2 := by
  have hmax : maxInt = 9223372036854775807 := rfl
  have hmin : minInt = -9223372036854775808 := rfl
  rw [goDiv_nonneg_eq b 2 (by omega) (by omega) (by norm_num)]
  exact wrapInt_eq (by omega) (by omega)

/-- The lookups of a cycle in continuous mode that starts at `bnum`, for every answer
of the store. -/
theorem cycle_lookups (b size : Int) (buffer newbuf : String) (bnum : Int) (env : CycleEnv)
    (w : World) (h0 : 0 ≤ bnum) (hb : 1 ≤ b) (h2 : bnum + b ≤ maxInt) :
    ∃ seg, (cycle b size false buffer newbuf bnum env w).world.ops = w.ops ++ seg ∧
      (∀ e ∈ seg, ∀ name,
        (e.1 = .aggregate name ∨ e.1 = .findName name ∨ e.1 = .findNickname name) →
          name = "Robot-" ++ Itoa (bnum + b / 2) ∧
          ∃ r, (Op.insertRobot r, true) ∈ seg ∧ r.Name = name ∧ r.Nickname = name) ∧
      ((∀ k, env.insertOk k = true) → env.pipeOk = true → env.findOk = true →
        env.findNickOk = true →
          (Op.aggregate ("Robot-" ++ Itoa (bnum + b / 2)), true) ∈ seg ∧
          (Op.findName ("Robot-" ++ Itoa (bnum + b / 2)), true) ∈ seg ∧
          (Op.findNickname ("Robot-" ++ Itoa (bnum + b / 2)), true) ∈ seg) := by
  have hmax : maxInt = 9223372036854775807 := rfl
  have hmin : minInt = -9223372036854775808 := rfl
  have hkeys : forRange bnum (goAdd bnum b)
      = (List.range b.toNat).map (fun (k : Nat) => bnum + (k : Int)) :=
    cycleKeys_eq bnum b (by omega) (by omega) h2
  have hb0 : b ≠ 0 := by omega
  have hmid := midpoint_eq bnum b h0 hb h2
  unfold cycle
  rw [insertBody_eq]
  cases hR : forEach (storeBody (mkInsert env buffer) env.insertOk)
      (forRange bnum (goAdd bnum b)) 0 w with
  | halt h w1 =>
    obtain ⟨seg, hs, ps⟩ := forEach_store_wext (fun e => ∃ k i, e.1 = mkInsert env buffer k i)
      (mkInsert env buffer) env.insertOk (fun k i _ => ⟨k, i, rfl⟩)
      (forRange bnum (goAdd bnum b)) 0 w
    rw [hR] at hs
    refine ⟨seg, hs, ?_, ?_⟩
    · intro e he name hname
      obtain ⟨k, i, hk⟩ := ps e he
      rw [hk] at hname
      simp [mkInsert] at hname
    · intro hi _ _ _
      rw [forEach_store_ok _ _ _ _ _ (fun j _ => hi _)] at hR
      cases hR
  | cont w1 =>
    have hall := forEach_store_cont _ _ _ _ _ _ hR
    rw [forEach_store_ok _ _ _ _ _ hall, hkeys, issuedOps_range] at hR
    injection hR with hw1
    subst hw1
    simp only [perOp, goQuo, hb0, if_false, Bool.false_eq_true]
    obtain ⟨segR, segU, hops, hrd, pR, pU⟩ := lookups_then_updates b size newbuf bnum env
      (World.log ⟨w.ops ++ (List.range b.toNat).map
        (fun (j : Nat) => (mkInsert env buffer (0 + j) (bnum + (j : Int)), true)), w.logs⟩
        (LogLine.insert b (goDiv env.elapsedInsert b) env.elapsedInsert size))
    rw [hmid] at pR
    refine ⟨(List.range b.toNat).map
        (fun (j : Nat) => (mkInsert env buffer (0 + j) (bnum + (j : Int)), true)) ++ segR ++ segU,
      ?_, ?_, ?_⟩
    · exact hops.trans (by simp [World.log])
    · intro e he name hname
      have hins : ∃ r, (Op.insertRobot r, true) ∈
          (List.range b.toNat).map
            (fun (j : Nat) => (mkInsert env buffer (0 + j) (bnum + (j : Int)), true)) ++ segR ++ segU
          ∧ r.Name = "Robot-" ++ Itoa (bnum + b / 2)
          ∧ r.Nickname = "Robot-" ++ Itoa (bnum + b / 2) := by
        refine ⟨mkRobot (bnum + b / 2) ((env.intn (0 + (b / 2).toNat) : Nat) : Int) buffer
          (env.now (0 + (b / 2).toNat)), ?_, rfl, rfl⟩
        apply List.mem_append_left
        apply List.mem_append_left
        rw [List.mem_map]
        refine ⟨(b / 2).toNat, List.mem_range.2 (by omega), ?_⟩
        have : (((b / 2).toNat : Nat) : Int) = b / 2 := by omega
        simp only [mkInsert, this]
      rcases List.mem_append.1 he with he | he
      · rcases List.mem_append.1 he with he | he
        · obtain ⟨j, _, rfl⟩ := List.mem_map.1 he
          simp [mkInsert] at hname
        · have hl := pR e he
          have hn : name = "Robot-" ++ Itoa (bnum + b / 2) := by
            rcases hl with hl | hl | hl | hl <;> rcases hname with hn | hn | hn <;>
              rw [hl] at hn <;> simp at hn <;> exact hn.symm
          subst hn
          exact ⟨rfl, hins⟩
      · rcases pU e he with ⟨n, hn⟩ | ⟨n, d, hn⟩ <;> rw [hn] at hname <;> simp at hname
    · intro _ hp hf hn
      rw [readPhases_ok_ops b bnum env _ hp hf hn, hmid] at hrd
      have hseg := List.append_cancel_left hrd
      subst hseg
      simp

theorem sampleEnv_allOk : sampleEnv.AllOk :=
  ⟨fun _ => rfl, fun _ => rfl, rfl, rfl, rfl, rfl, fun _ => rfl, fun _ => rfl⟩

theorem connectMongo_succ (b size : Int) (once : Bool) (t : Int) (env : WorkerEnv) (c : Nat) :
    connectMongo b size once t env (c + 1) =
      match connectMongo b size once t env c with
      | .halt h w1 => .halt h w1
      | .cont w1 =>
        cycle b size once (filler "simagix." size) (filler "MongoDB." size) (bnumAt t b c)
          (env.cycles c) w1 := by
  unfold connectMongo
  cases hd : env.dialOk with
  | false => simp
  | true =>
    simp only [Bool.true_eq_false, if_false]
    have hw := worker_succ b size once (filler "simagix." size) (filler "MongoDB." size)
      env.cycles c 0 (goMul t 100000) World.init
    rw [bnumAt_eq_advance]
    rw [Nat.zero_add] at hw
    refine hw.trans ?_
    cases worker b size once (filler "simagix." size) (filler "MongoDB." size) env.cycles c 0
      (goMul t 100000) World.init <;> rfl

theorem connectMongo_halt_mono (b size : Int) (once : Bool) (t : Int) (env : WorkerEnv)
    (fuel m : Nat) (h : Halt) (w : World)
    (hr : connectMongo b size once t env fuel = .halt h w) :
    connectMongo b size once t env (fuel + m) = .halt h w := by
  unfold connectMongo at hr ⊢
  cases hd : env.dialOk with
  | false => simpa [hd] using hr
  | true =>
    simp only [hd, Bool.true_eq_false, if_false] at hr ⊢
    exact worker_halt_mono _ _ _ _ _ _ _ _ _ _ _ _ _ hr

/-- The one cycle of seed mode in which every store operation succeeds. -/
theorem cycle_seed_ok (b size : Int) (buffer newbuf : String) (bnum : Int) (env : CycleEnv)
    (w : World) (h0 : 0 ≤ bnum) (hb : 1 ≤ b) (h2 : bnum + b ≤ maxInt) (hok : env.AllOk) :
    ∃ w1, cycle b size true buffer newbuf bnum env w = .halt (.exit 0) w1 ∧
      w1.ops = w.ops ++ seedTrace env buffer bnum b.toNat := by
  obtain ⟨hi, hbr, _, _, _, _, _, _⟩ := hok
  have hkeys : forRange bnum (goAdd bnum b)
      = (List.range b.toNat).map (fun (k : Nat) => bnum + (k : Int)) :=
    cycleKeys_eq bnum b (by unfold minInt; omega) (by omega) h2
  have hb0 : b ≠ 0 := by omega
  unfold cycle
  rw [insertBody_eq, forEach_store_ok _ _ _ _ _ (fun j _ => hi _), hkeys, issuedOps_range]
  simp only [perOp, goQuo, hb0, if_false, if_true]
  rw [brandBody_eq, forEach_store_ok _ _ _ _ _ (fun j _ => hbr _), issuedOps_range]
  refine ⟨_, rfl, ?_⟩
  simp [World.log, seedTrace, mkBrand]

theorem run_ok (t b size : Int) (env : WorkerEnv) (c : Nat) (ht : 0 ≤ t) (hb : 1 ≤ b)
    (hr : t * 100000 + (c : Int) * b ≤ maxInt) (hd : env.dialOk = true)
    (hok : ∀ c1, c1 < c → (env.cycles c1).AllOk)
    (he : ∀ c1, c1 < c → (env.cycles c1).elapsed1 ≠ 0) :
    ∃ w, connectMongo b size false t env c = .cont w := by
  induction c with
  | zero => exact ⟨World.init, by simp [connectMongo, hd, worker]⟩
  | succ c ih =>
    have e : ((c + 1 : Nat) : Int) * b = (c : Int) * b + b := by push_cast; ring
    rw [e] at hr
    have hcb : 0 ≤ (c : Int) * b := mul_nonneg (by omega) (by omega)
    obtain ⟨w, hw⟩ := ih (by omega) (fun c1 h => hok c1 (by omega)) (fun c1 h => he c1 (by omega))
    rw [connectMongo_succ, hw, bnumAt_eq t b c ht (by omega) (by omega)]
    obtain ⟨w1, h1, _⟩ := cycle_ok b size (filler "simagix." size) (filler "MongoDB." size)
      (t * 100000 + (c : Int) * b) (env.cycles c) w (by omega) hb (by omega)
      (hok c (by omega)) (he c (by omega))
    exact ⟨w1, h1⟩

theorem sampleEnv_elapsed1 : sampleEnv.elapsed1 ≠ 0 := by decide

theorem readPhases_halted_countOk (b bnum : Int) (env : CycleEnv) (w : World) (ok : Bool) :
    (readPhases b bnum { env with countOk := ok } w).halted = (readPhases b bnum env w).halted := by
  unfold readPhases
  dsimp only
  split
  · rfl
  split
  · rfl
  split
  · rfl
  split <;> rfl

theorem noDivPanic_seq (r : Res) (f : World → Res) :
    NoDivPanic r → (∀ w, NoDivPanic (f w)) →
    NoDivPanic (match r with
      | .halt h w1 => Res.halt h w1
      | .cont w1 => f w1) := by
  intro hr hf
  cases r with
  | cont w => exact hf w
  | halt h w => exact hr

theorem forEach_store_noDivPanic (mk : Nat → Int → Op) (ok : Nat → Bool) (keys : List Int)
    (k : Nat) (w : World) : NoDivPanic (forEach (storeBody mk ok) keys k w) := by
  unfold NoDivPanic
  cases hr : forEach (storeBody mk ok) keys k w with
  | cont w1 => simp [Res.halted]
  | halt h w1 =>
    have := forEach_store_halt mk ok keys k w w1 h hr
    subst this
    simp [Res.halted]

theorem readPhases_noDivPanic (b bnum : Int) (env : CycleEnv) (w : World)
    (he : env.elapsed1 ≠ 0) : NoDivPanic (readPhases b bnum env w) := by
  unfold NoDivPanic readPhases
  simp only [speedRatio, goQuo, he, if_false]
  split
  · simp [Res.halted]
  split
  · simp [Res.halted]
  split
  · simp [Res.halted]
  · simp [Res.halted]

theorem updatePhases_noDivPanic (b size : Int) (newbuf : String) (bnum : Int) (env : CycleEnv)
    (w : World) (hb : b ≠ 0) : NoDivPanic (updatePhases b size newbuf bnum env w) := by
  unfold updatePhases
  rw [incBody_eq, setBody_eq]
  refine noDivPanic_seq _ _ (forEach_store_noDivPanic _ _ _ _ _) ?_
  intro w1
  simp only [perOp, goQuo, hb, if_false]
  refine noDivPanic_seq _ _ (forEach_store_noDivPanic _ _ _ _ _) ?_
  intro w3
  simp [NoDivPanic, Res.halted]

theorem cycle_noDivPanic (b size : Int) (once : Bool) (buffer newbuf : String) (bnum : Int)
    (env : CycleEnv) (w : World) (hb : b ≠ 0) (he : env.elapsed1 ≠ 0) :
    NoDivPanic (cycle b size once buffer newbuf bnum env w) := by
  unfold cycle
  rw [insertBody_eq, brandBody_eq]
  refine noDivPanic_seq _ _ (forEach_store_noDivPanic _ _ _ _ _) ?_
  intro w1
  simp only [perOp, goQuo, hb, if_false]
  split
  · refine noDivPanic_seq _ (fun w3 => Res.halt (.exit 0) w3)
      (forEach_store_noDivPanic _ _ _ _ _) ?_
    intro w3
    simp [NoDivPanic, Res.halted]
  · exact noDivPanic_seq _ _ (readPhases_noDivPanic _ _ _ _ he)
      (fun w3 => updatePhases_noDivPanic _ _ _ _ _ _ hb)

theorem worker_noDivPanic (b size : Int) (once : Bool) (buffer newbuf : String)
    (cycles : Nat → CycleEnv) (fuel c : Nat) (bnum : Int) (w : World) (hb : b ≠ 0)
    (he : ∀ c, (cycles c).elapsed1 ≠ 0) :
    NoDivPanic (worker b size once buffer newbuf cycles fuel c bnum w) := by
  induction fuel generalizing c bnum w with
  | zero => simp [worker, NoDivPanic, Res.halted]
  | succ fuel ih =>
    unfold worker
    exact noDivPanic_seq _ _ (cycle_noDivPanic _ _ _ _ _ _ _ _ hb (he c)) (fun w1 => ih _ _ _)

theorem connectMongo_noDivPanic (b size : Int) (once : Bool) (t : Int) (env : WorkerEnv)
    (fuel : Nat) (hb : b ≠ 0) (he : ∀ c, (env.cycles c).elapsed1 ≠ 0) :
    NoDivPanic (connectMongo b size once t env fuel) := by
  unfold connectMongo
  split
  · simp [NoDivPanic, Res.halted]
  · exact worker_noDivPanic _ _ _ _ _ _ _ _ _ _ hb he

theorem cycle_zero_batch (size : Int) (once : Bool) (buffer newbuf : String) (x : Int)
    (env : CycleEnv) (w : World) :
    cycle 0 size once buffer newbuf (wrapInt x) env w = .halt .panicDivideByZero w := by
  have h : forRange (wrapInt x) (goAdd (wrapInt x) 0) = [] := by
    unfold forRange tripCount goAdd
    rw [add_zero, wrapInt_idem, sub_self]
    rfl
  unfold cycle
  rw [h]
  simp [forEach, perOp, goQuo]

theorem connectMongo_zero_batch (size : Int) (once : Bool) (t : Int) (env : WorkerEnv)
    (fuel : Nat) (hd : env.dialOk = true) :
    connectMongo 0 size once t env (fuel + 1) = .halt .panicDivideByZero World.init := by
  have h1 : connectMongo 0 size once t env 1 = .halt .panicDivideByZero World.init := by
    simp only [connectMongo, hd, Bool.true_eq_false, if_false, worker, goMul]
    rw [cycle_zero_batch]
  have := connectMongo_halt_mono 0 size once t env 1 fuel _ _ h1
  rwa [Nat.add_comm] at this

theorem cycle_zero_find (b size : Int) (buffer newbuf : String) (bnum : Int) (env : CycleEnv)
    (w : World) (hb : b ≠ 0) (hi : ∀ k, env.insertOk k = true) (hp : env.pipeOk = true)
    (hf : env.findOk = true) (hn : env.findNickOk = true) (he : env.elapsed1 = 0) :
    (cycle b size false buffer newbuf bnum env w).halted = some .panicDivideByZero := by
  unfold cycle
  rw [insertBody_eq, forEach_store_ok _ _ _ _ _ (fun j _ => hi _)]
  simp only [perOp, goQuo, hb, if_false, Bool.false_eq_true]
  unfold readPhases
  simp [hp, hf, hn, he, speedRatio, goQuo, Res.halted]

/-- The run of seed mode for any worker whose first range does not wrap. -/
theorem seed_run_of_thread (t b size : Int) (env : WorkerEnv) (fuel : Nat) (ht : 0 ≤ t) (hb : 1 ≤ b)
    (hr : t * 100000 + b ≤ maxInt) (hd : env.dialOk = true) (hok : (env.cycles 0).AllOk) :
    ∃ w, connectMongo b size true t env (fuel + 1) = .halt (.exit 0) w ∧
      w.ops =
        (List.range b.toNat).map (fun (k : Nat) =>
          (Op.insertRobot (mkRobot (t * 100000 + (k : Int)) (((env.cycles 0).intn k : Nat) : Int)
            (filler "simagix." size) ((env.cycles 0).now k)), true)) ++
        (List.range b.toNat).map (fun (k : Nat) =>
          (Op.insertBrand ⟨"Robot-" ++ Itoa (t * 100000 + (k : Int)), emptySha1⟩, true)) := by
  have hmax : maxInt = 9223372036854775807 := rfl
  have h1 : connectMongo b size true t env 1 =
      cycle b size true (filler "simagix." size) (filler "MongoDB." size) (t * 100000)
        (env.cycles 0) World.init := by
    rw [connectMongo_succ]
    have hb0 : bnumAt t b 0 = t * 100000 := by
      simpa using bnumAt_eq t b 0 ht (by omega) (by simp; omega)
    rw [hb0]
    simp [connectMongo, hd, worker]
  obtain ⟨w, hw, hops⟩ := cycle_seed_ok b size (filler "simagix." size) (filler "MongoDB." size)
    (t * 100000) (env.cycles 0) World.init (by omega) hb hr hok
  refine ⟨w, ?_, ?_⟩
  · have := connectMongo_halt_mono b size true t env 1 fuel (.exit 0) w (h1.trans hw)
    rwa [Nat.add_comm] at this
  · rw [hops]
    simp [World.init, seedTrace, mkInsert]

/-! ## The claims -/

/-- C1 (as stated, refuted): with the default batch size 512 the range of worker 0 in
cycle 195, `[99840, 100352)`, and the range of worker 1 in cycle 0, `[100000, 100512)`,
share the key 100000. -/
theorem worker_ranges_overlap :
    (0 : Int) ≠ 1 ∧ (1 : Int) ≤ 512 ∧
    (100000 : Int) ∈ cycleKeys (bnumAt 0 512 195) 512 ∧
    (100000 : Int) ∈ cycleKeys (bnumAt 1 512 0) 512 := by
  have h0 : bnumAt 0 512 195 = 99840 :=
    (bnumAt_eq 0 512 195 (by decide) (by decide) (by decide)).trans (by norm_num)
  have h1 : bnumAt 1 512 0 = 100000 := by decide
  refine ⟨by decide, by decide, ?_, ?_⟩
  · rw [h0, mem_cycleKeys _ _ _ (by decide) (by decide) (by decide)]
    decide
  · rw [h1, mem_cycleKeys _ _ _ (by decide) (by decide) (by decide)]
    decide

/-- C1 (amended): for distinct workers `t1 ≠ t2` (both `≥ 0`, with `t*100000 + 100000`
within the range of `int`), a batch size `≥ 1` and cycles `c1`, `c2` that stay inside
the block of 100000 keys of their worker, `(c1+1)*batch ≤ 100000` and
`(c2+1)*batch ≤ 100000`, no key of worker `t1` in cycle `c1` is a key of worker `t2` in
cycle `c2`. -/
theorem worker_ranges_disjoint (t1 t2 b : Int) (c1 c2 : Nat) (key : Int)
    (h1 : 0 ≤ t1) (h2 : 0 ≤ t2) (hne : t1 ≠ t2) (hb : 1 ≤ b)
    (hc1 : ((c1 : Int) + 1) * b ≤ 100000) (hc2 : ((c2 : Int) + 1) * b ≤ 100000)
    (hm1 : t1 * 100000 + 100000 ≤ maxInt) (hm2 : t2 * 100000 + 100000 ≤ maxInt)
    (hk : key ∈ cycleKeys (bnumAt t1 b c1) b) : key ∉ cycleKeys (bnumAt t2 b c2) b := by
  have hmax : maxInt = 9223372036854775807 := rfl
  have hmin : minInt = -9223372036854775808 := rfl
  have e1 : ((c1 : Int) + 1) * b = (c1 : Int) * b + b := by ring
  have e2 : ((c2 : Int) + 1) * b = (c2 : Int) * b + b := by ring
  rw [e1] at hc1
  rw [e2] at hc2
  have p1 : 0 ≤ (c1 : Int) * b := mul_nonneg (by omega) (by omega)
  have p2 : 0 ≤ (c2 : Int) * b := mul_nonneg (by omega) (by omega)
  intro hk2
  rw [bnumAt_eq t1 b c1 h1 (by omega) (by omega),
    mem_cycleKeys _ _ _ (by omega) (by omega) (by omega)] at hk
  rw [bnumAt_eq t2 b c2 h2 (by omega) (by omega),
    mem_cycleKeys _ _ _ (by omega) (by omega) (by omega)] at hk2
  omega

theorem worker_ranges_disjoint_witness :
    (99999 : Int) ∈ cycleKeys (bnumAt 0 500 199) 500 ∧
    (99999 : Int) ∉ cycleKeys (bnumAt 1 500 0) 500 := by
  have h0 : bnumAt 0 500 199 = 99500 :=
    (bnumAt_eq 0 500 199 (by decide) (by decide) (by decide)).trans (by norm_num)
  have hk : (99999 : Int) ∈ cycleKeys (bnumAt 0 500 199) 500 := by
    rw [h0, mem_cycleKeys _ _ _ (by decide) (by decide) (by decide)]
    decide
  exact ⟨hk, worker_ranges_disjoint 0 1 500 199 0 99999 (by decide) (by decide) (by decide)
    (by decide) (by decide) (by decide) (by decide) (by decide) hk⟩

/-- C2 (as stated, refuted): for the document size 7 the loop of lines 57-59 runs
`7/8 = 0` times, so the description filler is empty and shorter than 7 bytes. -/
theorem filler_shorter_than_size :
    (0 : Int) ≤ 7 ∧ ¬ ((7 : Int) ≤ len (filler "simagix." 7)) := by
  decide

/-- C2 (amended): for every document size `0 ≤ size` the description filler built by
`connectMongo` has exactly `8 * (size / 8)` bytes, the largest multiple of 8 that does
not exceed `size`: it is at most `size`, more than `size - 8`, and reaches `size`
exactly when `size` is a multiple of 8. -/
theorem filler_length_floor (size : Int) (h0 : 0 ≤ size) (h1 : size ≤ maxInt) :
    len (filler "simagix." size) = 8 * (size / 8) ∧
    len (filler "simagix." size) ≤ size ∧
    size < len (filler "simagix." size) + 8 ∧
    (size ≤ len (filler "simagix." size) ↔ size % 8 = 0) := by
  rw [filler_len size h0 h1]
  omega

theorem filler_length_floor_witness :
    len (filler "simagix." 4100) = 8 * (4100 / 8) ∧
    len (filler "simagix." 4100) ≤ 4100 ∧
    (4100 : Int) < len (filler "simagix." 4100) + 8 ∧
    ((4100 : Int) ≤ len (filler "simagix." 4100) ↔ (4100 : Int) % 8 = 0) :=
  filler_length_floor 4100 (by decide) (by decide)

/-- C3: a robot built at line 73 from a drawn number `num` in `[0,20)` has
`Tasked = num`, `Battery = 100 - num*5`, a battery in `[0,100]`, and
`Maint = (Battery > 25)`; and the body of the insert loop inserts exactly one robot,
built from a number of `[0,20)`, that satisfies this invariant. -/
theorem robot_battery_invariant (i num : Int) (descr : String) (now : Int)
    (env : CycleEnv) (k : Nat) (w : World) (h0 : 0 ≤ num) (h1 : num < 20) :
    ((mkRobot i num descr now).Stats.Tasked = num ∧
      (mkRobot i num descr now).Stats.Battery = 100 - num * 5 ∧
      0 ≤ (mkRobot i num descr now).Stats.Battery ∧
      (mkRobot i num descr now).Stats.Battery ≤ 100 ∧
      (mkRobot i num descr now).Stats.Maint
        = decide ((mkRobot i num descr now).Stats.Battery > 25)) ∧
    ∃ r, (insertBody env descr k i w).world.ops = w.ops ++ [(Op.insertRobot r, env.insertOk k)] ∧
      0 ≤ r.Stats.Tasked ∧ r.Stats.Tasked < 20 ∧
      r.Stats.Battery = 100 - r.Stats.Tasked * 5 ∧
      0 ≤ r.Stats.Battery ∧ r.Stats.Battery ≤ 100 ∧
      r.Stats.Maint = decide (r.Stats.Battery > 25) := by
  have hb : ∀ n : Int, 0 ≤ n → n < 20 → goSub 100 (goMul n 5) = 100 - n * 5 := by
    intro n hn0 hn1
    unfold goSub goMul wrapInt
    omega
  constructor
  · simp only [mkRobot, hb num h0 h1]
    refine ⟨trivial, trivial, ?_, ?_, trivial⟩ <;> omega
  · have hk0 : (0 : Int) ≤ ((env.intn k : Nat) : Int) := by omega
    have hk1 : ((env.intn k : Nat) : Int) < 20 := by
      have := (env.intn k).isLt
      omega
    refine ⟨mkRobot i ((env.intn k : Nat) : Int) descr (env.now k), ?_, ?_⟩
    · unfold insertBody
      dsimp only
      split <;> simp [Res.world, World.issue, World.log]
    · simp only [mkRobot, hb _ hk0 hk1]
      refine ⟨hk0, hk1, trivial, ?_, ?_, trivial⟩ <;> omega

theorem robot_battery_invariant_witness :
    (mkRobot 7 19 "simagix." 0).Stats.Tasked = 19 ∧
    (mkRobot 7 19 "simagix." 0).Stats.Battery = 100 - 19 * 5 ∧
    0 ≤ (mkRobot 7 19 "simagix." 0).Stats.Battery ∧
    (mkRobot 7 19 "simagix." 0).Stats.Battery ≤ 100 ∧
    (mkRobot 7 19 "simagix." 0).Stats.Maint
      = decide ((mkRobot 7 19 "simagix." 0).Stats.Battery > 25) :=
  (robot_battery_invariant 7 19 "simagix." 0 sampleEnv 0 World.init (by decide) (by decide)).1

/-- C4 (as stated, refuted): when `c.Count()` returns an error (line 123 discards it)
the worker goes on: the `$inc` update of the first key is issued next and the process
has not ended after the cycle. -/
theorem count_failure_ignored :
    (connectMongo 1 16 false 0 ⟨true, fun _ => sampleEnvCountFails⟩ 1).world.ops[4]?
      = some (Op.count, false) ∧
    (connectMongo 1 16 false 0 ⟨true, fun _ => sampleEnvCountFails⟩ 1).world.ops[5]?
      = some (Op.updateInc "Robot-0", true) ∧
    (connectMongo 1 16 false 0 ⟨true, fun _ => sampleEnvCountFails⟩ 1).halted = none := by
  decide

/-- C4 (amended): in every run, when a store operation other than the count (robot
insert, brand insert, aggregate, find by name, find by nickname, `$inc` update, `$set`
update) fails, it is the last operation the worker issues and the process ends with
`log.Fatal` (exit status 1), however long the worker is left to run; no such operation
is retried or ignored.  The error of the count is discarded: whether the lookups end
the process does not depend on it. -/
theorem store_failure_is_fatal (b size : Int) (once : Bool) (t : Int) (env : WorkerEnv)
    (fuel p : Nat) (op : Op)
    (hp : (connectMongo b size once t env fuel).world.ops[p]? = some (op, false))
    (hop : op ≠ .count) :
    p + 1 = (connectMongo b size once t env fuel).world.ops.length ∧
    (connectMongo b size once t env fuel).halted = some (.exit 1) ∧
    (∀ m, connectMongo b size once t env (fuel + m) = connectMongo b size once t env fuel) ∧
    (∀ bnum cenv w ok, (readPhases b bnum { cenv with countOk := ok } w).halted
      = (readPhases b bnum cenv w).halted) := by
  obtain ⟨h1, h2⟩ := fatalInv_last (connectMongo_inv b size once t env fuel) p op hp hop
  refine ⟨h1, h2, ?_, fun bnum cenv w ok => readPhases_halted_countOk b bnum cenv w ok⟩
  intro m
  cases hr : connectMongo b size once t env fuel with
  | cont w => rw [hr] at h2; simp [Res.halted] at h2
  | halt h w => exact connectMongo_halt_mono b size once t env fuel m h w hr

theorem store_failure_is_fatal_witness :
    1 + 1 = (connectMongo 3 16 false 0 ⟨true, fun _ => sampleEnvInsertFails⟩ 2).world.ops.length ∧
    (connectMongo 3 16 false 0 ⟨true, fun _ => sampleEnvInsertFails⟩ 2).halted
      = some (.exit 1) :=
  let h := store_failure_is_fatal 3 16 false 0 ⟨true, fun _ => sampleEnvInsertFails⟩ 2 1
    (Op.insertRobot (mkRobot 1 3 "simagix.simagix." 0)) (by decide) (by decide)
  ⟨h.1, h.2.1⟩

/-- C5: in seed mode with a single worker (`main` started with one thread, so the
worker's index `t` is the one element of `workerThreads 1`, which is 0), for every batch
size `1 ≤ b` of type `int` and every store operation succeeding, the run ends with
`os.Exit(0)` in its first cycle and its store operations are exactly the `b` robot
inserts for the keys `t*100000 .. t*100000+b-1` followed by the `b` brand inserts named
`"Robot-<k>"` for the same keys in order; no aggregate, find, count or update is
issued. -/
theorem seed_run_single_worker (t b size : Int) (env : WorkerEnv) (fuel : Nat)
    (ht : t ∈ workerThreads 1) (hb : 1 ≤ b) (hbm : b ≤ maxInt) (hd : env.dialOk = true)
    (hok : (env.cycles 0).AllOk) :
    ∃ w, connectMongo b size true t env (fuel + 1) = .halt (.exit 0) w ∧
      w.ops =
        (List.range b.toNat).map (fun (k : Nat) =>
          (Op.insertRobot (mkRobot (t * 100000 + (k : Int)) (((env.cycles 0).intn k : Nat) : Int)
            (filler "simagix." size) ((env.cycles 0).now k)), true)) ++
        (List.range b.toNat).map (fun (k : Nat) =>
          (Op.insertBrand ⟨"Robot-" ++ Itoa (t * 100000 + (k : Int)), emptySha1⟩, true)) := by
  have hw : workerThreads 1 = [0] := by decide
  rw [hw, List.mem_singleton] at ht
  subst ht
  exact seed_run_of_thread 0 b size env fuel (by decide) hb (by omega) hd hok

theorem seed_run_single_worker_witness :
    (0 : Int) ∈ workerThreads 1 ∧
    ∃ w, connectMongo 5 16 true 0 ⟨true, fun _ => sampleEnv⟩ (0 + 1) = .halt (.exit 0) w ∧
      w.ops =
        (List.range (5 : Int).toNat).map (fun (k : Nat) =>
          (Op.insertRobot (mkRobot (0 * 100000 + (k : Int)) ((sampleEnv.intn k : Nat) : Int)
            (filler "simagix." 16) (sampleEnv.now k)), true)) ++
        (List.range (5 : Int).toNat).map (fun (k : Nat) =>
          (Op.insertBrand ⟨"Robot-" ++ Itoa (0 * 100000 + (k : Int)), emptySha1⟩, true)) :=
  ⟨by decide, seed_run_single_worker 0 5 16 ⟨true, fun _ => sampleEnv⟩ 0 (by decide) (by decide)
    (by decide) rfl sampleEnv_allOk⟩

/-- C6 (as stated, refuted): for worker 1 and batch size `2^63 - 1` the first cycle
inserts nothing (`bnum + batch` wraps, the loop of line 69 does not run), yet the three
lookups are issued for the key `100000 + batch/2`: it names no record inserted in the
cycle. -/
theorem lookup_key_not_inserted :
    (0 : Int) ≤ 1 ∧ (1 : Int) ≤ 9223372036854775807 ∧
    (connectMongo 9223372036854775807 16 false 1 ⟨true, fun _ => sampleEnv⟩ 1).world.ops =
      [(Op.aggregate "Robot-4611686018427487903", true),
       (Op.findName "Robot-4611686018427487903", true),
       (Op.findNickname "Robot-4611686018427487903", true), (Op.count, true)] := by
  decide

/-- C6 (amended): for a worker `0 ≤ t`, a batch size `1 ≤ b` and a cycle `c` with
`t*100000 + (c+1)*b ≤ maxInt` (no wraparound), in every run that reaches cycle `c` the
cycle starts at `rangeStart = t*100000 + c*b`, the key `rangeStart + b/2` lies in
`[rangeStart, rangeStart + b)`, every aggregate, find by name and find by nickname of
the cycle targets `"Robot-<rangeStart + b/2>"`, which is the name and nickname of a
robot inserted in the cycle, and the three lookups are issued when the inserts and the
lookups succeed. -/
theorem lookup_key_midpoint (t b size : Int) (env : WorkerEnv) (c : Nat) (w : World)
    (ht : 0 ≤ t) (hb : 1 ≤ b) (hr : t * 100000 + ((c : Int) + 1) * b ≤ maxInt)
    (hrun : connectMongo b size false t env c = .cont w) :
    bnumAt t b c = t * 100000 + (c : Int) * b ∧
    t * 100000 + (c : Int) * b ≤ t * 100000 + (c : Int) * b + b / 2 ∧
    t * 100000 + (c : Int) * b + b / 2 < t * 100000 + (c : Int) * b + b ∧
    ∃ seg, (connectMongo b size false t env (c + 1)).world.ops = w.ops ++ seg ∧
      (∀ e ∈ seg, ∀ name,
        (e.1 = .aggregate name ∨ e.1 = .findName name ∨ e.1 = .findNickname name) →
          name = "Robot-" ++ Itoa (t * 100000 + (c : Int) * b + b / 2) ∧
          ∃ r, (Op.insertRobot r, true) ∈ seg ∧ r.Name = name ∧ r.Nickname = name) ∧
      ((∀ k, (env.cycles c).insertOk k = true) → (env.cycles c).pipeOk = true →
        (env.cycles c).findOk = true → (env.cycles c).findNickOk = true →
          (Op.aggregate ("Robot-" ++ Itoa (t * 100000 + (c : Int) * b + b / 2)), true) ∈ seg ∧
          (Op.findName ("Robot-" ++ Itoa (t * 100000 + (c : Int) * b + b / 2)), true) ∈ seg ∧
          (Op.findNickname ("Robot-" ++ Itoa (t * 100000 + (c : Int) * b + b / 2)), true)
            ∈ seg) := by
  have hmax : maxInt = 9223372036854775807 := rfl
  have e : ((c : Int) + 1) * b = (c : Int) * b + b := by ring
  rw [e] at hr
  have hcb : 0 ≤ (c : Int) * b := mul_nonneg (by omega) (by omega)
  have hbn := bnumAt_eq t b c ht (by omega) (by omega)
  refine ⟨hbn, by omega, by omega, ?_⟩
  rw [connectMongo_succ, hrun, hbn]
  exact cycle_lookups b size (filler "simagix." size) (filler "MongoDB." size)
    (t * 100000 + (c : Int) * b) (env.cycles c) w (by omega) hb (by omega)

theorem lookup_key_midpoint_witness :
    bnumAt 0 10 0 = 0 * 100000 + ((0 : Nat) : Int) * 10 ∧
    ∃ seg, (connectMongo 10 16 false 0 ⟨true, fun _ => sampleEnv⟩ (0 + 1)).world.ops
        = World.init.ops ++ seg ∧
      (Op.aggregate "Robot-5", true) ∈ seg ∧ (Op.findName "Robot-5", true) ∈ seg ∧
      (Op.findNickname "Robot-5", true) ∈ seg := by
  obtain ⟨h1, _, _, seg, h2, _, h3⟩ := lookup_key_midpoint 0 10 16 ⟨true, fun _ => sampleEnv⟩ 0
    World.init (by decide) (by decide) (by decide) rfl
  have e : "Robot-" ++ Itoa (0 * 100000 + ((0 : Nat) : Int) * 10 + 10 / 2) = "Robot-5" := by
    decide
  rw [e] at h3
  exact ⟨h1, seg, h2, h3 (fun _ => rfl) rfl rfl rfl⟩

/-- C7 (as stated, refuted): in continuous mode with every store operation succeeding,
(1) worker 1 with batch size `2^63 - 1` inserts and updates no key in cycle 0, although
`[100000, 100000 + batch)` is not empty: `bnum + batch` wraps to a negative number; and
(2) worker 0 with batch size 3, when the find on `name` takes no measurable time, ends
cycle 0 by a division by zero after the count: the keys 0, 1, 2 are inserted but none is
updated. -/
theorem cycle_keys_not_range :
    (1 : Int) ≤ 9223372036854775807 ∧ sampleEnv.AllOk ∧
    cycleKeys (bnumAt 1 9223372036854775807 0) 9223372036854775807 = [] ∧
    (connectMongo 9223372036854775807 16 false 1 ⟨true, fun _ => sampleEnv⟩ 1).world.ops =
      [(Op.aggregate "Robot-4611686018427487903", true),
       (Op.findName "Robot-4611686018427487903", true),
       (Op.findNickname "Robot-4611686018427487903", true), (Op.count, true)] ∧
    sampleEnvZeroFind.AllOk ∧
    (connectMongo 3 16 false 0 ⟨true, fun _ => sampleEnvZeroFind⟩ 1).halted
      = some .panicDivideByZero ∧
    (connectMongo 3 16 false 0 ⟨true, fun _ => sampleEnvZeroFind⟩ 1).world.ops.map Prod.fst =
      [Op.insertRobot (mkRobot 0 3 "simagix.simagix." 0),
       Op.insertRobot (mkRobot 1 3 "simagix.simagix." 0),
       Op.insertRobot (mkRobot 2 3 "simagix.simagix." 0),
       Op.aggregate "Robot-1", Op.findName "Robot-1", Op.findNickname "Robot-1", Op.count] :=
  ⟨by decide, sampleEnv_allOk, by decide, by decide,
    ⟨fun _ => rfl, fun _ => rfl, rfl, rfl, rfl, rfl, fun _ => rfl, fun _ => rfl⟩,
    by decide, by decide⟩

/-- C7 (amended): for a worker `0 ≤ t`, a batch size `1 ≤ b` and a cycle `c` with
`t*100000 + (c+1)*b ≤ maxInt` (no wraparound), in continuous mode with every store
operation succeeding and every find on `name` taking measurable time, the run reaches
cycle `c`, whose loops run over exactly the keys of
`[t*100000 + c*b, t*100000 + (c+1)*b)` in increasing order: the cycle issues the inserts
for these keys, the lookups of the midpoint and the count, the `$inc` updates and the
`$set` updates for these keys; the next cycle starts where this one ends and the ranges
of earlier cycles are disjoint from it. -/
theorem cycle_key_range (t b size : Int) (env : WorkerEnv) (c : Nat)
    (ht : 0 ≤ t) (hb : 1 ≤ b) (hr : t * 100000 + ((c : Int) + 1) * b ≤ maxInt)
    (hd : env.dialOk = true) (hok : ∀ c1, c1 ≤ c → (env.cycles c1).AllOk)
    (he : ∀ c1, c1 ≤ c → (env.cycles c1).elapsed1 ≠ 0) :
    cycleKeys (bnumAt t b c) b
      = (List.range b.toNat).map (fun (k : Nat) => t * 100000 + (c : Int) * b + (k : Int)) ∧
    (∃ w w1, connectMongo b size false t env c = .cont w ∧
      connectMongo b size false t env (c + 1) = .cont w1 ∧
      w1.ops = w.ops ++
        ((List.range b.toNat).map (fun (k : Nat) =>
            (Op.insertRobot (mkRobot (t * 100000 + (c : Int) * b + (k : Int))
              (((env.cycles c).intn k : Nat) : Int) (filler "simagix." size)
              ((env.cycles c).now k)), true)) ++
          [(Op.aggregate ("Robot-" ++ Itoa (t * 100000 + (c : Int) * b + b / 2)), true),
           (Op.findName ("Robot-" ++ Itoa (t * 100000 + (c : Int) * b + b / 2)), true),
           (Op.findNickname ("Robot-" ++ Itoa (t * 100000 + (c : Int) * b + b / 2)), true),
           (Op.count, true)] ++
          (List.range b.toNat).map (fun (k : Nat) =>
            (Op.updateInc ("Robot-" ++ Itoa (t * 100000 + (c : Int) * b + (k : Int))), true)) ++
          (List.range b.toNat).map (fun (k : Nat) =>
            (Op.updateSet ("Robot-" ++ Itoa (t * 100000 + (c : Int) * b + (k : Int)))
              (filler "MongoDB." size), true)))) ∧
    bnumAt t b (c + 1) = t * 100000 + (c : Int) * b + b ∧
    (∀ c1, c1 < c → ∀ key ∈ cycleKeys (bnumAt t b c1) b, key ∉ cycleKeys (bnumAt t b c) b) := by
  have hmax : maxInt = 9223372036854775807 := rfl
  have hmin : minInt = -9223372036854775808 := rfl
  have e : ((c : Int) + 1) * b = (c : Int) * b + b := by ring
  rw [e] at hr
  have hcb : 0 ≤ (c : Int) * b := mul_nonneg (by omega) (by omega)
  have hbn := bnumAt_eq t b c ht (by omega) (by omega)
  refine ⟨?_, ?_, ?_, ?_⟩
  · rw [hbn]
    exact cycleKeys_eq _ _ (by omega) (by omega) (by omega)
  · obtain ⟨w, hw⟩ := run_ok t b size env c ht hb (by omega) hd
      (fun c1 h => hok c1 (by omega)) (fun c1 h => he c1 (by omega))
    obtain ⟨w1, h1, hops⟩ := cycle_ok b size (filler "simagix." size) (filler "MongoDB." size)
      (t * 100000 + (c : Int) * b) (env.cycles c) w (by omega) hb (by omega)
      (hok c (by omega)) (he c (by omega))
    refine ⟨w, w1, hw, ?_, ?_⟩
    · rw [connectMongo_succ, hw, hbn]
      exact h1
    · rw [hops]
      simp [cycleTrace, mkInsert]
  · have := bnumAt_eq t b (c + 1) ht (by omega) (by push_cast; rw [e]; omega)
    rw [this]
    push_cast
    ring
  · intro c1 hc1 key hk hk2
    have hle : ((c1 : Int) + 1) * b ≤ (c : Int) * b :=
      mul_le_mul_of_nonneg_right (by omega) (by omega)
    have e1 : ((c1 : Int) + 1) * b = (c1 : Int) * b + b := by ring
    rw [e1] at hle
    have hc1b : 0 ≤ (c1 : Int) * b := mul_nonneg (by omega) (by omega)
    rw [bnumAt_eq t b c1 ht (by omega) (by omega),
      mem_cycleKeys _ _ _ (by omega) (by omega) (by omega)] at hk
    rw [hbn, mem_cycleKeys _ _ _ (by omega) (by omega) (by omega)] at hk2
    omega

theorem cycle_key_range_witness :
    cycleKeys (bnumAt 2 3 1) 3
      = (List.range (3 : Int).toNat).map
          (fun (k : Nat) => 2 * 100000 + ((1 : Nat) : Int) * 3 + (k : Int)) ∧
    bnumAt 2 3 (1 + 1) = 2 * 100000 + ((1 : Nat) : Int) * 3 + 3 := by
  obtain ⟨h1, _, h3, _⟩ := cycle_key_range 2 3 16 ⟨true, fun _ => sampleEnv⟩ 1 (by decide)
    (by decide) (by decide) rfl (fun _ _ => sampleEnv_allOk) (fun _ _ => sampleEnv_elapsed1)
  exact ⟨h1, h3⟩

/-- C8: in seed mode the database name is `"_MCHECK_"`; otherwise, for a buffer of 4
bytes, it is `"_MCHECK_"` followed by 8 uppercase hexadecimal digits that denote the 4
bytes, two digits per byte, in order; the name has 16 characters and distinct buffers
give distinct names. -/
theorem mcheck_name (buf buf1 : List Nat) (hlen : buf.length = 4) (hb : ∀ b ∈ buf, b < 256)
    (hb1 : ∀ b ∈ buf1, b < 256) :
    mcheck true buf = "_MCHECK_" ∧
    (∃ hex : String, mcheck false buf = "_MCHECK_" ++ hex ∧ hex.length = 8 ∧
      (∀ c ∈ hex.data, isUpperHex c = true) ∧ decodeHex hex.data = buf) ∧
    (mcheck false buf).length = 16 ∧
    (buf ≠ buf1 → mcheck false buf ≠ mcheck false buf1) := by
  refine ⟨rfl, ⟨fmtHexUpper buf, rfl, ?_, fmtHexUpper_chars buf, decodeHex_fmt buf hb⟩, ?_, ?_⟩
  · rw [fmtHexUpper_length, hlen]
  · show (head ++ fmtHexUpper buf).length = 16
    rw [String.length_append, fmtHexUpper_length, hlen]
    rfl
  · intro hne h
    apply hne
    have h2 : head ++ fmtHexUpper buf = head ++ fmtHexUpper buf1 := h
    have := congrArg String.data h2
    simp only [String.data_append] at this
    have h3 := List.append_cancel_left this
    rw [← decodeHex_fmt buf hb, ← decodeHex_fmt buf1 hb1, h3]

theorem mcheck_name_witness :
    mcheck true [0, 255, 171, 16] = "_MCHECK_" ∧
    (∃ hex : String, mcheck false [0, 255, 171, 16] = "_MCHECK_" ++ hex ∧ hex.length = 8 ∧
      (∀ c ∈ hex.data, isUpperHex c = true) ∧ decodeHex hex.data = [0, 255, 171, 16]) ∧
    (mcheck false [0, 255, 171, 16]).length = 16 ∧
    ([0, 255, 171, 16] ≠ [0, 255, 171, 17] →
      mcheck false [0, 255, 171, 16] ≠ mcheck false [0, 255, 171, 17]) :=
  mcheck_name [0, 255, 171, 16] [0, 255, 171, 17] (by decide) (by decide) (by decide)

/-- C9: for key indices `0 ≤ i`, `0 ≤ j` the robot's name is `"Robot-"` followed by the
decimal representation of `i` (a string of decimal digits whose value is `i`), its
nickname equals its name, and distinct indices give distinct names. -/
theorem robot_name_injective (i j num num1 : Int) (descr descr1 : String) (now now1 : Int)
    (hi : 0 ≤ i) (hj : 0 ≤ j) (hij : i ≠ j) :
    (∃ digits : String, (mkRobot i num descr now).Name = "Robot-" ++ digits ∧
      (∀ c ∈ digits.data, isDecimalDigit c = true) ∧ digits.data ≠ [] ∧
      (decimalValue digits.data : Int) = i) ∧
    (mkRobot i num descr now).Nickname = (mkRobot i num descr now).Name ∧
    (mkRobot i num descr now).Name ≠ (mkRobot j num1 descr1 now1).Name := by
  refine ⟨⟨Itoa i, rfl, ?_, ?_, decimalValue_Itoa i hi⟩, rfl, ?_⟩
  · exact (Itoa_digits i hi).1
  · exact (Itoa_digits i hi).2
  · intro h
    exact hij (robotName_injective i j hi hj h)

theorem robot_name_injective_witness :
    (∃ digits : String, (mkRobot 5 3 "" 0).Name = "Robot-" ++ digits ∧
      (∀ c ∈ digits.data, isDecimalDigit c = true) ∧ digits.data ≠ [] ∧
      (decimalValue digits.data : Int) = 5) ∧
    (mkRobot 5 3 "" 0).Nickname = (mkRobot 5 3 "" 0).Name ∧
    (mkRobot 5 3 "" 0).Name ≠ (mkRobot 50 3 "" 0).Name :=
  robot_name_injective 5 50 3 3 "" "" 0 0 (by decide) (by decide) (by decide)

/-- C10: the divisions of a cycle.  For a batch size `≥ 1` and an elapsed time `e ≥ 0`
the per-operation average is `e / batch` with `avg*batch ≤ e < (avg+1)*batch`; for a
find time `e1 > 0` the ratio is `e2 / e1` rounded down.  With batch size 0 the average
after the (empty) insert phase divides by zero, before any store operation; with
`e1 = 0` the ratio divides by zero once the inserts and the lookups have succeeded.
With a batch size other than 0 and every find time other than 0 no run ends by a
division by zero. -/
theorem division_by_zero_safety (batch e e1 e2 size t : Int) (once : Bool) (env : WorkerEnv)
    (fuel : Nat) (hb : 1 ≤ batch) (he : 0 ≤ e) (hem : e ≤ maxInt) (he1 : 0 < e1)
    (he2 : 0 ≤ e2) (he2m : e2 ≤ maxInt) (hd : env.dialOk = true) :
    (perOp e batch = some (e / batch) ∧ e / batch * batch ≤ e ∧ e < (e / batch + 1) * batch) ∧
    speedRatio e2 e1 = some (e2 / e1) ∧
    perOp e 0 = none ∧
    speedRatio e2 0 = none ∧
    connectMongo 0 size once t env (fuel + 1) = .halt .panicDivideByZero World.init ∧
    (∀ (b0 : Int) (cenv : CycleEnv) (buffer newbuf : String) (bnum : Int) (w : World),
      b0 ≠ 0 → (∀ k, cenv.insertOk k = true) → cenv.pipeOk = true → cenv.findOk = true →
      cenv.findNickOk = true → cenv.elapsed1 = 0 →
        (cycle b0 size false buffer newbuf bnum cenv w).halted = some .panicDivideByZero) ∧
    (∀ b0 : Int, b0 ≠ 0 → (∀ c, (env.cycles c).elapsed1 ≠ 0) →
      (connectMongo b0 size once t env fuel).halted ≠ some .panicDivideByZero) := by
  have hb0 : batch ≠ 0 := by omega
  have he10 : e1 ≠ 0 := by omega
  refine ⟨⟨?_, Int.ediv_mul_le e hb0, Int.lt_ediv_add_one_mul_self e (by omega)⟩, ?_, ?_, ?_,
    connectMongo_zero_batch size once t env fuel hd, ?_, ?_⟩
  · simp only [perOp, goQuo, hb0, if_false]
    rw [goDiv_nonneg_eq e batch he hem (by omega)]
  · simp only [speedRatio, goQuo, he10, if_false]
    rw [goDiv_nonneg_eq e2 e1 he2 he2m he1]
  · simp [perOp, goQuo]
  · simp [speedRatio, goQuo]
  · intro b0 cenv buffer newbuf bnum w h0 hi hp hf hn hz
    exact cycle_zero_find b0 size buffer newbuf bnum cenv w h0 hi hp hf hn hz
  · intro b0 h0 hne
    exact connectMongo_noDivPanic b0 size once t env fuel h0 hne

theorem division_by_zero_safety_witness :
    (perOp 10 3 = some (10 / 3) ∧ (10 : Int) / 3 * 3 ≤ 10 ∧ (10 : Int) < (10 / 3 + 1) * 3) ∧
    speedRatio 9 2 = some (9 / 2) ∧
    connectMongo 0 16 false 0 ⟨true, fun _ => sampleEnv⟩ (0 + 1)
      = .halt .panicDivideByZero World.init ∧
    (cycle 3 16 false "" "" 0 sampleEnvZeroFind World.init).halted = some .panicDivideByZero ∧
    (connectMongo 3 16 false 0 ⟨true, fun _ => sampleEnv⟩ 2).halted
      ≠ some .panicDivideByZero :=
  let h := division_by_zero_safety 3 10 2 9 16 0 false ⟨true, fun _ => sampleEnv⟩ 2
    (by decide) (by decide) (by decide) (by decide) (by decide) (by decide) rfl
  ⟨h.1, h.2.1,
    (division_by_zero_safety 3 10 2 9 16 0 false ⟨true, fun _ => sampleEnv⟩ 0
      (by decide) (by decide) (by decide) (by decide) (by decide) (by decide) rfl).2.2.2.2.1,
    h.2.2.2.2.2.1 3 sampleEnvZeroFind "" "" 0 World.init (by decide) (fun _ => rfl) rfl rfl rfl
      rfl,
    h.2.2.2.2.2.2 3 (by decide) (fun _ => sampleEnv_elapsed1)⟩

end Mcheck
